import Mathlib

/-!
Verification of the agent-harness daemon (Python sources under src/) against
its natural-language specification.  The development shallowly embeds the
relevant program parts:

* a JSON value model mirroring the subset of Python's json module the
  program relies on (json.loads / json.dumps with default separators;
  numeric literals are modelled as integers, \uXXXX escapes are not
  modelled — none of the claims' inputs use floats or unicode escapes);
* the turn engine of internal/agent/session_runner.py as an explicit
  state machine driven by an environment of external inputs (model
  responses, tool outcomes, approval decisions, the cancel token);
* the path-safety check and tools of internal/agent/tools.py;
* the approval-waiter registry, event log and record store of
  internal/runstore/store.py;
* the subprocess runner of internal/util/exec.py.
-/

namespace Harness

/-! ## JSON values (model of the json module as used by the program) -/

inductive JVal where
  | jnull : JVal
  | jbool : Bool → JVal
  | jnum : Int → JVal
  | jstr : String → JVal
  | jarr : List JVal → JVal
  | jobj : List (String × JVal) → JVal

/-- Left brace character, written via its code point. -/
def lbrace : Char := Char.ofNat 123

/-- Right brace character, written via its code point. -/
def rbrace : Char := Char.ofNat 125

def isWsChar (c : Char) : Bool :=
  c = ' ' || c = '\n' || c = '\t' || c = '\r'

def skipWs : List Char → List Char
  | [] => []
  | c :: rest => if isWsChar c then skipWs rest else c :: rest

/-- Python str.strip(): drop whitespace from both ends. -/
def trimChars (cs : List Char) : List Char :=
  ((cs.dropWhile isWsChar).reverse.dropWhile isWsChar).reverse

/-- Model of Python's str.strip(). -/
def strTrim (s : String) : String := String.mk (trimChars s.toList)

/-- Parse the body of a JSON string after the opening quote; returns the
decoded characters and the input remaining after the closing quote. -/
def parseStringBody : Nat → List Char → Option (List Char × List Char)
  | 0, _ => none
  | _, [] => none
  | fuel + 1, c :: rest =>
    if c = '"' then some ([], rest)
    else if c = '\\' then
      match rest with
      | [] => none
      | e :: rest2 =>
        let dec : Option Char :=
          if e = '"' then some '"'
          else if e = '\\' then some '\\'
          else if e = '/' then some '/'
          else if e = 'n' then some '\n'
          else if e = 't' then some '\t'
          else if e = 'r' then some '\r'
          else if e = 'b' then some (Char.ofNat 8)
          else if e = 'f' then some (Char.ofNat 12)
          else none
        match dec with
        | none => none
        | some d => (parseStringBody fuel rest2).map (fun p => (d :: p.1, p.2))
    else (parseStringBody fuel rest).map (fun p => (c :: p.1, p.2))

def takeDigits : List Char → List Char × List Char
  | [] => ([], [])
  | c :: rest =>
    if c.isDigit then
      let p := takeDigits rest
      (c :: p.1, p.2)
    else ([], c :: rest)

def digitsToNat (ds : List Char) : Nat :=
  ds.foldl (fun acc c => acc * 10 + (c.toNat - 48)) 0

def parseNum : List Char → Option (Int × List Char)
  | [] => none
  | c :: rest =>
    if c = '-' then
      let p := takeDigits rest
      if p.1.isEmpty then none else some (-(Int.ofNat (digitsToNat p.1)), p.2)
    else
      let p := takeDigits (c :: rest)
      if p.1.isEmpty then none else some (Int.ofNat (digitsToNat p.1), p.2)

/-- Consume a literal keyword such as null and return the remaining input. -/
def takeLit : List Char → List Char → Option (List Char)
  | [], input => some input
  | _, [] => none
  | p :: ps, c :: rest => if p = c then takeLit ps rest else none

mutual

def parseVal : Nat → List Char → Option (JVal × List Char)
  | 0, _ => none
  | fuel + 1, input =>
    match skipWs input with
    | [] => none
    | c :: rest =>
      if c = '"' then
        (parseStringBody fuel rest).map (fun p => (JVal.jstr (String.mk p.1), p.2))
      else if c = lbrace then parseObjFields fuel (skipWs rest) true
      else if c = '[' then parseArrItems fuel (skipWs rest) true
      else
        match takeLit ['n', 'u', 'l', 'l'] (c :: rest) with
        | some r => some (JVal.jnull, r)
        | none =>
          match takeLit ['t', 'r', 'u', 'e'] (c :: rest) with
          | some r => some (JVal.jbool true, r)
          | none =>
            match takeLit ['f', 'a', 'l', 's', 'e'] (c :: rest) with
            | some r => some (JVal.jbool false, r)
            | none => (parseNum (c :: rest)).map (fun p => (JVal.jnum p.1, p.2))

def parseArrItems : Nat → List Char → Bool → Option (JVal × List Char)
  | 0, _, _ => none
  | fuel + 1, input, first =>
    match skipWs input with
    | [] => none
    | c :: rest =>
      if c = ']' && first then some (JVal.jarr [], rest)
      else
        match parseVal fuel (c :: rest) with
        | none => none
        | some (v, r1) =>
          match skipWs r1 with
          | [] => none
          | c2 :: r2 =>
            if c2 = ',' then
              match parseArrItems fuel r2 false with
              | some (JVal.jarr vs, r) => some (JVal.jarr (v :: vs), r)
              | _ => none
            else if c2 = ']' then some (JVal.jarr [v], r2)
            else none

def parseObjFields : Nat → List Char → Bool → Option (JVal × List Char)
  | 0, _, _ => none
  | fuel + 1, input, first =>
    match skipWs input with
    | [] => none
    | c :: rest =>
      if c = rbrace && first then some (JVal.jobj [], rest)
      else if c = '"' then
        match parseStringBody fuel rest with
        | none => none
        | some (key, r1) =>
          match skipWs r1 with
          | [] => none
          | c2 :: r2 =>
            if c2 = ':' then
              match parseVal fuel r2 with
              | none => none
              | some (v, r3) =>
                match skipWs r3 with
                | [] => none
                | c3 :: r4 =>
                  if c3 = ',' then
                    match parseObjFields fuel r4 false with
                    | some (JVal.jobj fs, r) => some (JVal.jobj ((String.mk key, v) :: fs), r)
                    | _ => none
                  else if c3 = rbrace then some (JVal.jobj [(String.mk key, v)], r4)
                  else none
            else none
      else none

end

/-- Model of Python json.loads: parse a complete document, requiring only
trailing whitespace after the value. -/
def jparse (s : String) : Option JVal :=
  let cs := s.toList
  match parseVal (4 * cs.length + 8) cs with
  | some (v, rest) => if (skipWs rest).isEmpty then some v else none
  | none => none

def escapeChar (c : Char) : List Char :=
  if c = '"' then ['\\', '"']
  else if c = '\\' then ['\\', '\\']
  else if c = '\n' then ['\\', 'n']
  else if c = '\t' then ['\\', 't']
  else if c = '\r' then ['\\', 'r']
  else if c.toNat < 32 then
    let hex := fun (n : Nat) => Char.ofNat (if n < 10 then 48 + n else 87 + n)
    ['\\', 'u', '0', '0', hex (c.toNat / 16), hex (c.toNat % 16)]
  else [c]

def jdumpStr (s : String) : String :=
  "\"" ++ String.mk (s.toList.map escapeChar).flatten ++ "\""

def joinComma : List String → String
  | [] => ""
  | [s] => s
  | s :: rest => s ++ ", " ++ joinComma rest

mutual

/-- Model of Python json.dumps with default separators: item separator
comma-space, key separator colon-space, object keys in insertion order
(json.dumps does not sort keys by default). -/
def jdump : JVal → String
  | JVal.jnull => "null"
  | JVal.jbool true => "true"
  | JVal.jbool false => "false"
  | JVal.jnum n => toString n
  | JVal.jstr s => jdumpStr s
  | JVal.jarr xs => "[" ++ joinComma (jdumpList xs) ++ "]"
  | JVal.jobj fs => String.mk [lbrace] ++ joinComma (jdumpFields fs) ++ String.mk [rbrace]

def jdumpList : List JVal → List String
  | [] => []
  | v :: vs => jdump v :: jdumpList vs

def jdumpFields : List (String × JVal) → List String
  | [] => []
  | (k, v) :: fs => (jdumpStr k ++ ": " ++ jdump v) :: jdumpFields fs

end

/-! ## Tool-call key canonicalization (session_runner.py) -/

/-- The string produced by json.dumps for the empty dict. -/
def emptyObjStr : String := String.mk [lbrace, rbrace]

/-- Model of session_runner._normalize_tool_input: strip the raw input;
empty or null becomes the empty object; valid JSON is re-serialized with
json.dumps; anything else passes through unchanged. -/
def normalizeToolInput (inputStr : String) : String :=
  let raw := strTrim inputStr
  if raw = "" || raw = "null" then emptyObjStr
  else
    match jparse raw with
    | some v => jdump v
    | none => raw

structure ToolCall where
  id : String
  name : String
  input : String
deriving DecidableEq

/-- Model of session_runner._tool_call_key. -/
def toolCallKey (c : ToolCall) : String := c.name ++ ":" ++ normalizeToolInput c.input

/-- Model of session_runner._parse_tool_input: empty or null input becomes
the empty dict, valid JSON parses to its value, anything else stays a raw
string. -/
def parseToolInput (inputStr : String) : JVal :=
  let raw := strTrim inputStr
  if raw = "" || raw = "null" then JVal.jobj []
  else
    match jparse raw with
    | some v => v
    | none => JVal.jstr raw

/-! ## Turn engine (internal/agent/session_runner.py)

The engine is embedded as a deterministic state machine driven by an
environment of external inputs.  Timestamps and the opaque id generator
are replaced by a counter in the state; the session/turn records, events
and messages written through the Store are tracked directly in the state
(the engine is the single writer for its session).  Cost accounting
(_record_session_cost) only mutates session.cost, which no claim touches,
and is not tracked. -/

structure ToolDef where
  name : String
  kind : String
  requires_approval : Bool := false
  allow_without_approval : Bool := false
deriving DecidableEq

structure MsgPart where
  type : String
  text : Option String := none
  tool_call_id : Option String := none
  tool_name : Option String := none
  tool_input : Option JVal := none

structure Msg where
  id : String
  role : String
  parts : List MsgPart
  tool_call_id : Option String := none

/-- Result of a tool invocation (tools.ToolResult); the id field of the
Python dataclass always repeats the call id and is omitted. -/
structure ToolResultM where
  ok : Bool
  error : Option String := none
  parts : List MsgPart := []

/-- Data payload of a session event; only the keys the engine actually
writes are modelled, each as an optional field. -/
structure EvData where
  tool : Option String := none
  tool_call_id : Option String := none
  ok : Option Bool := none
  error : Option String := none
  skipped : Option Bool := none
  reason : Option String := none
  model : Option String := none
  delta : Option String := none
  finish_reason : Option String := none
  message_id : Option String := none
  role : Option String := none
deriving DecidableEq

/-- Session event as appended by _session_event (timestamp and the
constant session/turn ids omitted). -/
structure SEvent where
  type : String
  message : Option String := none
  data : Option EvData := none
deriving DecidableEq

def evOf (t : String) : SEvent := { type := t }

def evMsgOf (t m : String) : SEvent := { type := t, message := some m }

def evDataOf (t : String) (d : EvData) : SEvent := { type := t, data := some d }

/-- Engine-visible state: the session/turn fields the loop mutates, the
event log, the transcript, the dirty flag, the per-turn duplicate-call
counters, and a counter standing in for the id generator. -/
structure EngineState where
  sessionStatus : String
  turnStatus : String
  sessionError : String := ""
  turnError : String := ""
  events : List SEvent := []
  messages : List Msg := []
  dirty : Bool := false
  counts : List (String × Nat) := []
  nextId : Nat := 0

def pushEv (st : EngineState) (e : SEvent) : EngineState :=
  { st with events := st.events ++ [e] }

def pushEvs (st : EngineState) (es : List SEvent) : EngineState :=
  { st with events := st.events ++ es }

def countGet (counts : List (String × Nat)) (k : String) : Nat :=
  match counts with
  | [] => 0
  | (k2, n) :: rest => if k2 = k then n else countGet rest k

def countSet (counts : List (String × Nat)) (k : String) (v : Nat) : List (String × Nat) :=
  match counts with
  | [] => [(k, v)]
  | (k2, n) :: rest => if k2 = k then (k, v) :: rest else (k2, n) :: countSet rest k v

/-- Outcome of calling tool.invoke: either a returned result or a raised
exception (the engine converts the latter into an ok=false result). -/
inductive Outcome where
  | result : ToolResultM → Outcome
  | exn : String → Outcome

def resolveOutcome (o : Outcome) : ToolResultM :=
  match o with
  | Outcome.result r => r
  | Outcome.exn m => { ok := false, error := some m, parts := [] }

/-- Behaviour of a wait_for_session_approval call: either the waiter was
resolved with an ApprovalDecision, or the cancel token fired while
blocked and the wait raised the cancel cause. -/
inductive ApOutcome where
  | decision : String → Option String → ApOutcome
  | canceledWait : String → ApOutcome

/-- The external world one turn interacts with: the tool registry, the
model provider (per iteration), tool invocation outcomes, approval
decisions keyed by tool-call id, the cancel token as observed at the top
of each iteration (and its reason), and the configured policies. -/
structure Env where
  registry : String → Option ToolDef
  model : Nat → String × List ToolCall
  toolOutcome : ToolCall → Outcome
  approval : String → ApOutcome
  cancelAt : Nat → Bool
  cancelReason : String := "canceled"
  finishReason : Nat → Option String := fun _ => none
  modelId : String := "model"
  autoVerify : Bool := true
  requireForKinds : List String := ["exec", "write"]
  requireForTools : List String := []
  specMode : Bool := false

/-- Model of SessionRunner._requires_approval. -/
def requiresApproval (env : Env) (d : ToolDef) : Bool :=
  if d.allow_without_approval then false
  else if d.requires_approval then true
  else if env.requireForKinds.contains d.kind then true
  else env.requireForTools.contains d.name

/-- The event pair emitted for a suppressed duplicate call. -/
def skipPairEvs (call : ToolCall) (reason : String) : List SEvent :=
  [ evDataOf "tool_call_skipped"
      { tool := some call.name, tool_call_id := some call.id, reason := some reason },
    evDataOf "tool_call_completed"
      { tool := some call.name, tool_call_id := some call.id, ok := some false,
        error := some reason, skipped := some true } ]

/-- Model of SessionRunner._append_skipped_tool: emits tool_call_skipped
followed by tool_call_completed with ok false and skipped true. -/
def appendSkipped (st : EngineState) (call : ToolCall) (reason : String) : EngineState :=
  pushEvs st (skipPairEvs call reason)

/-- Append a message through the store and emit message_added, with a
fresh id from the counter. -/
def appendMessage (st : EngineState) (role : String) (parts : List MsgPart)
    (tcid : Option String) : EngineState :=
  let mid := "msg-" ++ toString st.nextId
  let st := { st with nextId := st.nextId + 1,
                      messages := st.messages ++ [{ id := mid, role := role, parts := parts, tool_call_id := tcid }] }
  pushEv st (evDataOf "message_added" { message_id := some mid, role := some role })

def freshCallId (st : EngineState) : String × EngineState :=
  ("call-" ++ toString st.nextId, { st with nextId := st.nextId + 1 })

/-- Result of a computation that may raise: events written before the
raise persist, so the exceptional branch carries the state. -/
inductive ExcRes (α : Type) where
  | ok : EngineState → α → ExcRes α
  | raised : EngineState → String → ExcRes α

/-- Record one more occurrence of a call key in tool_call_counts. -/
def bumpCount (st : EngineState) (key : String) : EngineState :=
  { st with counts := countSet st.counts key (countGet st.counts key + 1) }

/-- Model of session_runner lines 119-130: deduplicate tool calls by key,
looking up each tool (an unknown tool name raises) and dropping calls
whose key was already counted this turn. -/
def scheduleCalls (env : Env) : List ToolCall → EngineState → ExcRes (List (ToolCall × ToolDef))
  | [], st => ExcRes.ok st []
  | call :: rest, st =>
    match env.registry call.name with
    | none => ExcRes.raised st ("unknown tool: " ++ call.name)
    | some tool =>
      if countGet st.counts (toolCallKey call) > 0 then
        scheduleCalls env rest (appendSkipped st call "duplicate tool call: no new info")
      else
        match scheduleCalls env rest (bumpCount st (toolCallKey call)) with
        | ExcRes.raised st2 m => ExcRes.raised st2 m
        | ExcRes.ok st2 tl => ExcRes.ok st2 ((call, tool) :: tl)

/-- Model of SessionRunner._invoke_spec_validate. -/
def invokeSpecValidate (env : Env) (st : EngineState) : ExcRes Bool :=
  match env.registry "validate_spec" with
  | none => ExcRes.raised st "validate_spec tool not configured"
  | some _ =>
    let (cid, st) := freshCallId st
    let call : ToolCall := { id := cid, name := "validate_spec", input := emptyObjStr }
    let st := pushEv st (evDataOf "tool_call_started"
      { tool := some "validate_spec", tool_call_id := some cid })
    let result := resolveOutcome (env.toolOutcome call)
    let st := pushEv st (evDataOf "tool_call_completed"
      { tool := some "validate_spec", tool_call_id := some cid,
        ok := some result.ok, error := result.error })
    let st := pushEv st (evDataOf "spec_validated" { ok := some result.ok, error := result.error })
    let st := appendMessage st "tool" result.parts (some cid)
    ExcRes.ok st result.ok

/-- Model of SessionRunner._invoke_verify: synthesizes a verify call,
applies the approval policy (raising on denial or on cancellation during
the wait), invokes the tool and appends the result message. -/
def invokeVerify (env : Env) (st : EngineState) : ExcRes Bool :=
  match env.registry "verify" with
  | none => ExcRes.raised st "verify tool not configured"
  | some vd =>
    let (cid, st) := freshCallId st
    let call : ToolCall := { id := cid, name := "verify", input := emptyObjStr }
    let step2 : EngineState → ExcRes Bool := fun st =>
      let st := pushEv st (evDataOf "tool_call_started"
        { tool := some "verify", tool_call_id := some cid })
      let result := resolveOutcome (env.toolOutcome call)
      let st := pushEv st (evDataOf "tool_call_completed"
        { tool := some "verify", tool_call_id := some cid,
          ok := some result.ok, error := result.error })
      let st := appendMessage st "tool" result.parts (some cid)
      ExcRes.ok st result.ok
    if requiresApproval env vd then
      let st := pushEv st (evDataOf "approval_requested"
        { tool := some "verify", tool_call_id := some cid })
      match env.approval cid with
      | ApOutcome.canceledWait r => ExcRes.raised st r
      | ApOutcome.decision action _ =>
        if action = "deny" then ExcRes.raised st "verification denied"
        else step2 st
    else step2 st

/-- Model of the per-call execution loop (session_runner lines 175-286):
approval brokerage, invocation, event and message recording, the dirty
flag, the spec-mode validate hook, and the break on a failed result.
Returns the final value of new_tool_calls. -/
def execCalls (env : Env) : List (ToolCall × ToolDef) → Nat → EngineState → ExcRes Nat
  | [], n, st => ExcRes.ok st n
  | (call, tool) :: rest, n, st =>
    let n := n + 1
    let afterApproval : EngineState → ExcRes Nat := fun st =>
      let st := pushEv st (evDataOf "tool_call_started"
        { tool := some call.name, tool_call_id := some call.id })
      let result := resolveOutcome (env.toolOutcome call)
      let st := pushEv st (evDataOf "tool_call_completed"
        { tool := some call.name, tool_call_id := some call.id,
          ok := some result.ok, error := result.error })
      let st := appendMessage st "tool" result.parts (some call.id)
      let st :=
        if (tool.kind = "write" || tool.kind = "exec")
            && !(env.specMode && call.name = "write_spec") then
          { st with dirty := true }
        else st
      if env.specMode && call.name = "write_spec" then
        match invokeSpecValidate env st with
        | ExcRes.raised st2 m => ExcRes.raised st2 m
        | ExcRes.ok st2 okv =>
          if !okv then execCalls env rest n st2
          else if !result.ok then ExcRes.ok st2 n
          else execCalls env rest n st2
      else if !result.ok then ExcRes.ok st n
      else execCalls env rest n st
    if requiresApproval env (tool) then
      let st := { st with sessionStatus := "waiting_approval", turnStatus := "waiting_approval" }
      let st := pushEv st (evDataOf "approval_requested"
        { tool := some call.name, tool_call_id := some call.id })
      match env.approval call.id with
      | ApOutcome.canceledWait r => ExcRes.raised st r
      | ApOutcome.decision action reason =>
        if action = "deny" then
          let st := pushEv st (evDataOf "approval_denied"
            { tool := some call.name, tool_call_id := some call.id, reason := reason })
          ExcRes.raised st "approval denied"
        else
          let st := { st with sessionStatus := "active", turnStatus := "running" }
          let st := pushEv st (evDataOf "approval_granted"
            { tool := some call.name, tool_call_id := some call.id, reason := reason })
          afterApproval st
    else afterApproval st

/-- Model of SessionRunner._cancel_turn: the session becomes canceled,
the turn failed, and a session_canceled event is emitted. -/
def cancelTurn (st : EngineState) (reason : String) : EngineState :=
  let st := { st with sessionStatus := "canceled", sessionError := reason,
                      turnStatus := "failed", turnError := reason }
  pushEv st (evMsgOf "session_canceled" reason)

/-- Model of SessionRunner._complete_turn. -/
def completeTurn (st : EngineState) : EngineState :=
  let st := { st with sessionStatus := "active", sessionError := "",
                      turnStatus := "succeeded" }
  pushEv st (evOf "turn_completed")

/-- Model of SessionRunner._fail_turn. -/
def failTurn (st : EngineState) (msg : String) : EngineState :=
  let st := { st with sessionStatus := "failed", sessionError := msg,
                      turnStatus := "failed", turnError := msg }
  pushEv st (evMsgOf "turn_failed" msg)

/-- Outcome of one iteration of the turn loop. -/
inductive IterOut where
  | finished : EngineState → IterOut
  | raised : EngineState → String → IterOut
  | next : EngineState → IterOut

def IterOut.state : IterOut → EngineState
  | IterOut.finished st => st
  | IterOut.raised st _ => st
  | IterOut.next st => st

/-- One iteration of the turn loop (session_runner lines 110-296):
cancellation check, model call, duplicate suppression, assistant message,
quiescence check with verify hook, per-call execution, and the
all-duplicates re-check. -/
def execIter (env : Env) (i : Nat) (st : EngineState) : IterOut :=
  if env.cancelAt i then IterOut.finished (cancelTurn st env.cancelReason)
  else
    let (text, toolCalls) := env.model i
    let st := if text ≠ "" then pushEv st (evDataOf "model_output_delta" { delta := some text }) else st
    let st := pushEv st (evDataOf "model_output_completed" { finish_reason := env.finishReason i })
    match scheduleCalls env toolCalls st with
    | ExcRes.raised st m => IterOut.raised st m
    | ExcRes.ok st callsToRun =>
      let assistantParts : List MsgPart :=
        (if strTrim text ≠ "" then [{ type := "text", text := some text }] else [])
          ++ callsToRun.map (fun p =>
            { type := "tool_use", tool_call_id := some p.1.id, tool_name := some p.1.name,
              tool_input := some (parseToolInput p.1.input) })
      let st := if assistantParts.isEmpty then st else appendMessage st "assistant" assistantParts none
      let verifyOrComplete : EngineState → IterOut := fun st =>
        if env.autoVerify && st.dirty then
          match invokeVerify env st with
          | ExcRes.raised st2 m => IterOut.raised st2 m
          | ExcRes.ok st2 okv =>
            if !okv then IterOut.next st2
            else IterOut.finished (completeTurn st2)
        else IterOut.finished (completeTurn st)
      if toolCalls.isEmpty then verifyOrComplete st
      else
        match execCalls env callsToRun 0 st with
        | ExcRes.raised st2 m => IterOut.raised st2 m
        | ExcRes.ok st2 newToolCalls =>
          if newToolCalls = 0 then verifyOrComplete st2
          else IterOut.next st2

/-- Value of max_turns in _execute_turn. -/
def maxTurns : Nat := 8

/-- The bounded iteration loop: fuel counts the remaining rounds and the
index the current iteration; exhausting the fuel raises the
max-iterations error. -/
def runLoop (env : Env) : Nat → Nat → EngineState → IterOut
  | 0, _, st => IterOut.raised st "max turn iterations reached"
  | fuel + 1, i, st =>
    match execIter env i st with
    | IterOut.next st2 => runLoop env fuel (i + 1) st2
    | out => out

/-- Turn initialization (session_runner lines 59-74): session active,
turn running, error cleared, turn_started and model_resolved emitted. -/
def initTurn (env : Env) (st : EngineState) : EngineState :=
  let st := { st with sessionStatus := "active", turnStatus := "running", turnError := "" }
  let st := pushEv st (evOf "turn_started")
  pushEv st (evDataOf "model_resolved" { model := some env.modelId })

/-- Model of SessionRunner._execute_turn: initialize the turn, run up to
maxTurns iterations, and route the outcome: a completed or canceled turn
returns its state, any raised exception goes through _fail_turn. -/
def executeTurn (env : Env) (st0 : EngineState) : EngineState :=
  match runLoop env maxTurns 0 (initTurn env st0) with
  | IterOut.finished st => st
  | IterOut.raised st m => failTurn st m
  | IterOut.next st => st

/-! ## Path safety and the read_file tool (internal/agent/tools.py)

Filesystem paths are modelled as lists of components.  The workspace root
is given already resolved (Path(workspace).resolve()); pathlib's resolve
on a join is modelled by normalization of the concatenated component
lists (symbolic links are not modelled).  os.path.relpath of two
normalized absolute paths is computed from their common prefix. -/

def splitOnChar (sep : Char) : List Char → List (List Char)
  | [] => [[]]
  | c :: rest =>
    let r := splitOnChar sep rest
    if c = sep then [] :: r
    else
      match r with
      | [] => [[c]]
      | h :: t => (c :: h) :: t

def splitPath (s : String) : List String := (splitOnChar '/' s.toList).map String.mk

def isAbsPath (s : String) : Bool :=
  match s.toList with
  | c :: _ => c = '/'
  | [] => false

/-- Normalization performed by Path.resolve on an absolute path: empty
and dot components disappear, dot-dot pops the last component (and is a
no-op at the filesystem root, like Path("/").parent). -/
def normComps (cs : List String) : List String :=
  cs.foldl
    (fun acc c =>
      if c = "" || c = "." then acc
      else if c = ".." then acc.dropLast
      else acc ++ [c])
    []

/-- Model of (Path(workspace) / rel).resolve(): an absolute rel replaces
the root (pathlib join semantics), otherwise the components are joined,
then the result is normalized. -/
def resolveUnder (root : List String) (rel : String) : List String :=
  if isAbsPath rel then normComps (splitPath rel)
  else normComps (root ++ splitPath rel)

def commonPrefixLen : List String → List String → Nat
  | a :: as, b :: bs => if a = b then commonPrefixLen as bs + 1 else 0
  | _, _ => 0

/-- Model of os.path.relpath(abs_path, root) for two normalized absolute
component lists: climb out of the uncommon part of root, then descend
into abs_path. -/
def relParts (root absP : List String) : List String :=
  let c := commonPrefixLen root absP
  List.replicate (root.length - c) ".." ++ absP.drop c

/-- The resolved path stays inside the root. -/
def underRoot : List String → List String → Bool
  | [], _ => true
  | _ :: _, [] => false
  | a :: as, b :: bs => a = b && underRoot as bs

/-- Model of tools._safe_workspace_path: reject the empty path, resolve
against the root, and reject when the relative form is dot-dot or starts
with dot-dot-slash (equivalently: when its first component is dot-dot). -/
def safeWorkspacePath (root : List String) (rel : String) : Except String (List String) :=
  if strTrim rel = "" then Except.error "path is empty"
  else
    let absP := resolveUnder root rel
    let rp := relParts root absP
    if rp.head? = some ".." then Except.error ("path escapes workspace: " ++ rel)
    else Except.ok absP

def jGetField : List (String × JVal) → String → Option JVal
  | [], _ => none
  | (k, v) :: rest, key => if k = key then some v else jGetField rest key

/-- Python truthiness of a JSON-decoded value. -/
def jTruthy : JVal → Bool
  | JVal.jnull => false
  | JVal.jbool b => b
  | JVal.jnum n => decide (n ≠ 0)
  | JVal.jstr s => decide (s ≠ "")
  | JVal.jarr xs => !xs.isEmpty
  | JVal.jobj fs => !fs.isEmpty

/-- Model of int(x) on a JSON-decoded value; non-numeric values raise. -/
def jToInt : JVal → Except String Int
  | JVal.jnum n => Except.ok n
  | JVal.jbool b => Except.ok (if b then 1 else 0)
  | _ => Except.error "invalid int"

/-- Model of int(payload.get(key) or dflt). -/
def getOrInt (fields : List (String × JVal)) (key : String) (dflt : Int) : Except String Int :=
  match jGetField fields key with
  | none => Except.ok dflt
  | some v => if jTruthy v then jToInt v else Except.ok dflt

def pySliceIdx (len : Nat) (i : Int) : Nat :=
  if i < 0 then (Int.ofNat len + i).toNat
  else min i.toNat len

/-- Python list slicing xs[i:j] with negative-index wrapping. -/
def pySlice {α : Type} (xs : List α) (i j : Int) : List α :=
  (xs.take (pySliceIdx xs.length j)).drop (pySliceIdx xs.length i)

def splitNl (s : String) : List String := (splitOnChar '\n' s.toList).map String.mk

def joinWith (sep : String) : List String → String
  | [] => ""
  | [s] => s
  | s :: rest => s ++ sep ++ joinWith sep rest

/-- Result of ReadFileTool.invoke together with the files it opened; an
Except.error models an exception escaping invoke (the engine converts it
to an ok=false result). -/
structure ReadFileRes where
  res : Except String ToolResultM
  reads : List (List String)

/-- Model of ReadFileTool.invoke: parse the input (a parse failure is a
clean error result), extract path, apply _safe_workspace_path (raising on
escape), read the file, and clamp the line range subject to max_lines. -/
def readFileInvoke (fs : List String → Option String) (root : List String)
    (maxLines : Int) (inputStr : String) : ReadFileRes :=
  let raw := if inputStr = "" then emptyObjStr else inputStr
  match jparse raw with
  | none => { res := Except.ok { ok := false, error := some "invalid input" }, reads := [] }
  | some payload =>
    match payload with
    | JVal.jobj fields =>
      let pathV := (jGetField fields "path").getD (JVal.jstr "")
      match pathV with
      | JVal.jstr rel =>
        match safeWorkspacePath root rel with
        | Except.error m => { res := Except.error m, reads := [] }
        | Except.ok absP =>
          match fs absP with
          | none => { res := Except.error "file not found", reads := [absP] }
          | some content =>
            let lines := splitNl content
            match getOrInt fields "start_line" 1 with
            | Except.error m => { res := Except.error m, reads := [absP] }
            | Except.ok s0 =>
              match getOrInt fields "end_line" (Int.ofNat lines.length) with
              | Except.error m => { res := Except.error m, reads := [absP] }
              | Except.ok e0 =>
                let s1 := if s0 < 1 then 1 else s0
                let e1 := if e0 > Int.ofNat lines.length then Int.ofNat lines.length else e0
                let s2 := if s1 > e1 then e1 else s1
                let e2 :=
                  if maxLines > 0 && e1 - s2 + 1 > maxLines then
                    min (Int.ofNat lines.length) (s2 + maxLines - 1)
                  else e1
                let snippet := joinWith "\n" (pySlice lines (s2 - 1) e2)
                { res := Except.ok { ok := true, parts := [{ type := "text", text := some snippet }] },
                  reads := [absP] }
      | _ => { res := Except.error "path is not a string", reads := [] }
    | _ => { res := Except.error "payload has no attribute get", reads := [] }

/-! ## Approval waiters (internal/runstore/store.py)

The per-id waiter dictionaries are modelled as association lists from the
run or session id to the list of pending keys.  A session approval
delivers the decision to the waiting thread: approve_session_tool_call
returns the decision it resolved the waiter with. -/

structure ApprovalDecisionM where
  action : String
  reason : Option String := none
deriving DecidableEq

def lookupPend (m : List (String × List String)) (id : String) : List String :=
  match m with
  | [] => []
  | (k, v) :: rest => if k = id then v else lookupPend rest id

def setPend (m : List (String × List String)) (id : String) (v : List String) :
    List (String × List String) :=
  match m with
  | [] => [(id, v)]
  | (k, w) :: rest => if k = id then (k, v) :: rest else (k, w) :: setPend rest id v

/-- Model of Store.require_approval: register a one-shot waiter, erroring
on empty ids or on a key that is already pending. -/
def requireApproval (m : List (String × List String)) (runId stepId : String) :
    Except String (List (String × List String)) :=
  if runId = "" || stepId = "" then Except.error "run_id and step_id required"
  else
    let pend := lookupPend m runId
    if stepId ∈ pend then Except.error ("approval already pending for step " ++ stepId)
    else Except.ok (setPend m runId (pend ++ [stepId]))

/-- Model of Store.approve: resolve the waiter and remove it; a missing
key errors. -/
def approve (m : List (String × List String)) (runId stepId : String) :
    Except String (List (String × List String)) :=
  let pend := lookupPend m runId
  if stepId ∈ pend then Except.ok (setPend m runId (pend.erase stepId))
  else Except.error ("no approval pending for step " ++ stepId)

/-- Model of Store.require_session_approval (same structure keyed by
tool_call_id). -/
def requireSessionApproval (m : List (String × List String)) (sid tcid : String) :
    Except String (List (String × List String)) :=
  if sid = "" || tcid = "" then Except.error "session_id and tool_call_id required"
  else
    let pend := lookupPend m sid
    if tcid ∈ pend then Except.error ("approval already pending for tool call " ++ tcid)
    else Except.ok (setPend m sid (pend ++ [tcid]))

/-- Model of Store.approve_session_tool_call: resolve the waiter with the
decision (returned as the value delivered to the waiting thread) and
remove it; a missing key errors. -/
def approveSessionToolCall (m : List (String × List String)) (sid tcid : String)
    (d : ApprovalDecisionM) :
    Except String (List (String × List String) × ApprovalDecisionM) :=
  let pend := lookupPend m sid
  if tcid ∈ pend then Except.ok (setPend m sid (pend.erase tcid), d)
  else Except.error ("no approval pending for tool call " ++ tcid)

/-! ## Event log (Store.append_event / Store.read_events)

The events.ndjson file is modelled as the list of its lines.  The
functions are generic in the event type and its json serialization
(append_event writes json.dumps(asdict(event)) as one line; read_events
applies json.loads line by line).  Timestamp normalization and
subscriber fan-out touch no state a claim mentions and are omitted. -/

def appendEventLine {E : Type} (dump : E → String) (log : List String) (e : E) : List String :=
  log ++ [dump e]

/-- Model of the read_events loop: strip each line, skip blank lines and
lines that fail to parse, stop once max_items (when positive) events have
been collected.  The second argument tracks len(out) so far. -/
def readEventsAux {E : Type} (parse : String → Option E) (maxItems : Int) :
    List String → Int → List E
  | [], _ => []
  | raw :: rest, sofar =>
    let line := strTrim raw
    if line = "" then readEventsAux parse maxItems rest sofar
    else
      match parse line with
      | none => readEventsAux parse maxItems rest sofar
      | some e =>
        if maxItems > 0 && sofar + 1 ≥ maxItems then [e]
        else e :: readEventsAux parse maxItems rest (sofar + 1)

/-- Model of Store.read_events. -/
def readEvents {E : Type} (parse : String → Option E) (log : List String) (maxItems : Int) :
    List E :=
  readEventsAux parse maxItems log 0

/-! ## Subprocess runner and the git_status tool (util/exec.py, tools.py)

The outside world supplies, per command line, the exit code and captured
output of the subprocess.  Timeouts and kill-on-cancel are wall-clock
behaviours and are not modelled; neither affects the exit-code dispatch
the claims are about. -/

structure CmdResultM where
  cmd : String
  exit_code : Int
  stdout : String
  stderr : String
  duration : String
deriving DecidableEq

structure CmdWorld where
  exitCode : String → Int
  stdoutOf : String → String
  stderrOf : String → String
  durationOf : String → String

/-- Model of util.exec.run_command: empty command raises without a
result; a nonzero exit raises command failed with the result attached. -/
def runCommand (w : CmdWorld) (cmd : String) : Except (String × Option CmdResultM) CmdResultM :=
  if cmd = "" then Except.error ("cmd is empty", none)
  else
    let result : CmdResultM :=
      { cmd := cmd, exit_code := w.exitCode cmd, stdout := w.stdoutOf cmd,
        stderr := w.stderrOf cmd, duration := w.durationOf cmd }
    if result.exit_code = 0 then Except.ok result
    else Except.error ("command failed (exit " ++ toString result.exit_code ++ ")", some result)

def gitStatusCmd : String := "git status --porcelain"

/-- Model of GitStatusTool.invoke: on success return ok with the stripped
stdout; on a raised command failure return ok=false with the error text
and the stdout captured on the attached result. -/
def gitStatusInvoke (w : CmdWorld) : ToolResultM :=
  match runCommand w gitStatusCmd with
  | Except.ok res =>
    { ok := true, parts := [{ type := "text", text := some (strTrim res.stdout) }] }
  | Except.error (msg, some res) =>
    { ok := false, error := some msg, parts := [{ type := "text", text := some res.stdout }] }
  | Except.error (msg, none) =>
    { ok := false, error := some msg, parts := [{ type := "text", text := some "" }] }

/-- A workspace that is not a git repository: git status exits 128 with a
fatal message on stderr and nothing on stdout (documented git behaviour,
external to the repository). -/
def NotGitRepoWorld (w : CmdWorld) : Prop :=
  w.exitCode gitStatusCmd = 128 ∧ w.stdoutOf gitStatusCmd = ""

/-! ## Record store copy semantics (Store.get_run / get_session / lists)

Python objects are modelled as cells in an explicit heap: the store's
in-memory dict maps ids to cell addresses, the persisted json files map
ids to plain values.  copy.deepcopy allocates a fresh cell holding the
same value (faithful because a deep copy shares no mutable substructure
with the original); caller-side mutation is a heap write at the returned
address.  Runs and sessions go through the same code shape, so the table
is generic in the record type and its id and created_at projections;
getRun/getSession etc. are its two instantiations. -/

structure Heap (α : Type) where
  cells : List (Nat × α) := []
  next : Nat := 0

def hfind {α : Type} : List (Nat × α) → Nat → Option α
  | [], _ => none
  | (b, v) :: rest, a => if b = a then some v else hfind rest a

def hread {α : Type} (h : Heap α) (a : Nat) : Option α := hfind h.cells a

def hwriteCells {α : Type} : List (Nat × α) → Nat → α → List (Nat × α)
  | [], _, _ => []
  | (b, w) :: rest, a, v => if b = a then (b, v) :: rest else (b, w) :: hwriteCells rest a v

def hwrite {α : Type} (h : Heap α) (a : Nat) (v : α) : Heap α :=
  { h with cells := hwriteCells h.cells a v }

def halloc {α : Type} (h : Heap α) (v : α) : Heap α × Nat :=
  ({ cells := h.cells ++ [(h.next, v)], next := h.next + 1 }, h.next)

/-- Addresses in use are below the allocation frontier. -/
def HeapWF {α : Type} (h : Heap α) : Prop :=
  ∀ p ∈ h.cells, p.1 < h.next

structure TableState (α : Type) where
  heap : Heap α
  byId : List (String × Nat) := []
  disk : List (String × α) := []

def TableWF {α : Type} (t : TableState α) : Prop :=
  HeapWF t.heap ∧ ∀ p ∈ t.byId, p.2 < t.heap.next

def alookupAddr (m : List (String × Nat)) (id : String) : Option Nat :=
  match m with
  | [] => none
  | (k, a) :: rest => if k = id then some a else alookupAddr rest id

def asetAddr (m : List (String × Nat)) (id : String) (a : Nat) : List (String × Nat) :=
  match m with
  | [] => [(id, a)]
  | (k, b) :: rest => if k = id then (k, a) :: rest else (k, b) :: asetAddr rest id a

def alookupRec {α : Type} (m : List (String × α)) (id : String) : Option α :=
  match m with
  | [] => none
  | (k, v) :: rest => if k = id then some v else alookupRec rest id

def asetRec {α : Type} (m : List (String × α)) (id : String) (v : α) : List (String × α) :=
  match m with
  | [] => [(id, v)]
  | (k, w) :: rest => if k = id then (k, v) :: rest else (k, w) :: asetRec rest id v

/-- The record value the store currently holds for an id. -/
def storedRec {α : Type} (t : TableState α) (id : String) : Option α :=
  match alookupAddr t.byId id with
  | none => none
  | some a => hread t.heap a

/-- Model of Store.get_run / Store.get_session: look up the record and
return a deep copy (a fresh cell with the same value); unknown ids
raise KeyError. -/
def getRec {α : Type} (t : TableState α) (id : String) : Except String (TableState α × Nat) :=
  match alookupAddr t.byId id with
  | none => Except.error ("record not found: " ++ id)
  | some a =>
    match hread t.heap a with
    | none => Except.error "invalid address"
    | some v =>
      let p := halloc t.heap v
      Except.ok ({ t with heap := p.1 }, p.2)

/-- Model of Store.update_run / Store.update_session: store the caller's
object (by reference) in the in-memory map and persist its value to disk
(the updated_at refresh is not modelled). -/
def updateRec {α : Type} (key : α → String) (t : TableState α) (a : Nat) :
    Except String (TableState α) :=
  match hread t.heap a with
  | none => Except.error "record is nil"
  | some v =>
    Except.ok { t with byId := asetAddr t.byId (key v) a, disk := asetRec t.disk (key v) v }

def insertByDesc {α : Type} (rank : α → Nat) (x : α) : List α → List α
  | [] => [x]
  | y :: rest => if rank x ≥ rank y then x :: y :: rest else y :: insertByDesc rank x rest

def sortByDesc {α : Type} (rank : α → Nat) : List α → List α
  | [] => []
  | x :: rest => insertByDesc rank x (sortByDesc rank rest)

def hallocMany {α : Type} (h : Heap α) : List α → Heap α × List Nat
  | [] => (h, [])
  | v :: vs =>
    let p := halloc h v
    let q := hallocMany p.1 vs
    (q.1, p.2 :: q.2)

/-- Model of Store.list_runs / Store.list_sessions: snapshot the values,
sort by created_at descending, and return a deep copy of each. -/
def listRecs {α : Type} (rank : α → Nat) (t : TableState α) : TableState α × List Nat :=
  let vals := t.byId.filterMap (fun p => hread t.heap p.2)
  let sorted := sortByDesc rank vals
  let q := hallocMany t.heap sorted
  ({ t with heap := q.1 }, q.2)

/-- Run record (the fields the claims inspect; steps stands for the
nested mutable list inside a Run). -/
structure RunM where
  id : String
  created_at : Nat := 0
  status : String := "queued"
  steps : List String := []
  error : String := ""
deriving DecidableEq

/-- Session record (the fields the claims inspect). -/
structure SessM where
  id : String
  created_at : Nat := 0
  status : String := "active"
  messages : List String := []
  error : String := ""
deriving DecidableEq

def getRun (t : TableState RunM) (id : String) : Except String (TableState RunM × Nat) :=
  getRec t id

def updateRun (t : TableState RunM) (a : Nat) : Except String (TableState RunM) :=
  updateRec RunM.id t a

def listRuns (t : TableState RunM) : TableState RunM × List Nat :=
  listRecs RunM.created_at t

def getSession (t : TableState SessM) (id : String) : Except String (TableState SessM × Nat) :=
  getRec t id

def updateSession (t : TableState SessM) (a : Nat) : Except String (TableState SessM) :=
  updateRec SessM.id t a

def listSessions (t : TableState SessM) : TableState SessM × List Nat :=
  listRecs SessM.created_at t

/-- Per-line parse step applied by the read_events loop. -/
def lineParse {E : Type} (parse : String → Option E) (raw : String) : Option E :=
  if strTrim raw = "" then none else parse (strTrim raw)

/-- Concrete event codec used to witness the event-log theorem. -/
def evDumpW (k : Nat) : String := "e" ++ toString k

/-- Concrete event decoder used to witness the event-log theorem. -/
def evParseW (s : String) : Option Nat :=
  if s = "e3" then some 3 else if s = "e5" then some 5 else none

/-- Duplicate-suppression reason string used by the engine. -/
def dupReason : String := "duplicate tool call: no new info"

/-- The state carried by either constructor of ExcRes. -/
def excState {α : Type} : ExcRes α → EngineState
  | ExcRes.ok st _ => st
  | ExcRes.raised st _ => st

/-- Initial engine state of a fresh turn. -/
def engineSt0 : EngineState := { sessionStatus := "active", turnStatus := "pending" }

/-- Read-kind tool definition used by the concrete environments. -/
def rtDefW : ToolDef := { name := "repo_tree", kind := "read" }

/-- Exec-kind approval-requiring tool used by the concrete environments. -/
def shDefW : ToolDef := { name := "shell", kind := "exec", requires_approval := true }

/-- Verify tool definition used by the concrete environments. -/
def vDefW : ToolDef := { name := "verify", kind := "exec" }

/-- Registry shared by the concrete turn-engine environments. -/
def regW : String → Option ToolDef := fun n =>
  if n = "repo_tree" then some rtDefW
  else if n = "shell" then some shDefW
  else if n = "verify" then some vDefW
  else none

/-- First call of the key-order pair: input with keys a then b. -/
def c1CallA : ToolCall := { id := "tc-1", name := "repo_tree", input := "\x7b\"a\":1,\"b\":2\x7d" }

/-- Second call of the key-order pair: same JSON object, keys b then a. -/
def c1CallB : ToolCall := { id := "tc-2", name := "repo_tree", input := "\x7b\"b\":2,\"a\":1\x7d" }

/-- Fields of the first key-order input in parse order. -/
def c1FieldsA : List (String × JVal) := [("a", JVal.jnum 1), ("b", JVal.jnum 2)]

/-- Fields of the second key-order input in parse order. -/
def c1FieldsB : List (String × JVal) := [("b", JVal.jnum 2), ("a", JVal.jnum 1)]

/-- Environment in which the model returns the two key-order variants in
one response and nothing afterwards. -/
def c1Env : Env :=
  { registry := regW
    model := fun i => if i = 0 then ("", [c1CallA, c1CallB]) else ("", [])
    toolOutcome := fun _ => Outcome.result { ok := true, parts := [{ type := "text", text := some "t" }] }
    approval := fun _ => ApOutcome.decision "approve" none
    cancelAt := fun _ => false }

/-- Whitespace variant pair: canonical input. -/
def dwCallA : ToolCall := { id := "tw-1", name := "repo_tree", input := "\x7b\"a\":1\x7d" }

/-- Whitespace variant pair: same JSON with extra spaces. -/
def dwCallB : ToolCall := { id := "tw-2", name := "repo_tree", input := "\x7b \"a\" : 1 \x7d" }

/-- Environment used by the whitespace-duplicate witness. -/
def dwEnv : Env :=
  { registry := regW
    model := fun i => if i = 0 then ("", [dwCallA, dwCallB]) else ("", [])
    toolOutcome := fun _ => Outcome.result { ok := true }
    approval := fun _ => ApOutcome.decision "approve" none
    cancelAt := fun _ => false }

/-- Environment whose model keeps returning the same call. -/
def c2Env : Env :=
  { registry := regW
    model := fun _ => ("", [dwCallA])
    toolOutcome := fun _ => Outcome.result { ok := true }
    approval := fun _ => ApOutcome.decision "approve" none
    cancelAt := fun _ => false }

/-- State in which dwCallA's key is already counted for this turn. -/
def c2St : EngineState := { engineSt0 with counts := [(toolCallKey dwCallA, 1)] }

/-- Same state with a dirty workspace. -/
def c2StDirty : EngineState := { c2St with dirty := true }

/-- A read tool call used by the failed-tool-call scenarios. -/
def c3Call : ToolCall := { id := "tc-e", name := "repo_tree", input := "" }

/-- Environment whose tool raises an exception on invocation. -/
def c3EnvExn : Env :=
  { registry := regW
    model := fun i => if i = 0 then ("", [c3Call]) else ("", [])
    toolOutcome := fun _ => Outcome.exn "boom"
    approval := fun _ => ApOutcome.decision "approve" none
    cancelAt := fun _ => false }

/-- Environment whose tool returns a clean ok=false result. -/
def c3EnvFalse : Env :=
  { registry := regW
    model := fun i => if i = 0 then ("", [c3Call]) else ("", [])
    toolOutcome := fun _ => Outcome.result { ok := false, error := some "nope" }
    approval := fun _ => ApOutcome.decision "approve" none
    cancelAt := fun _ => false }

/-- An approval-requiring shell call used by the cancellation scenario. -/
def c4Call : ToolCall := { id := "tc-9", name := "shell", input := "\x7b\"command\":\"sleep 10\"\x7d" }

/-- Environment where the cancel token fires while the engine is blocked
waiting for the approval decision on the shell call. -/
def c4Env : Env :=
  { registry := regW
    model := fun i => if i = 0 then ("", [c4Call]) else ("", [])
    toolOutcome := fun _ => Outcome.result { ok := true }
    approval := fun _ => ApOutcome.canceledWait "canceled"
    cancelAt := fun _ => false }

/-- Concrete workspace root used by the path-safety witness. -/
def wsRoot : List String := ["home", "user", "ws"]

/-- Concrete read_file input with a dot-dot traversal path. -/
def inTrav : String := "\x7b\"path\":\"../../etc/passwd\"\x7d"

/-- Concrete read_file input with an absolute path outside the root. -/
def inAbs : String := "\x7b\"path\":\"/etc/passwd\"\x7d"

/-- Concrete run record for the store-copy witness. -/
def runRec0 : RunM := { id := "r1" }

/-- Concrete store table holding one run. -/
def runTab0 : TableState RunM :=
  { heap := { cells := [(0, runRec0)], next := 1 }, byId := [("r1", 0)], disk := [("r1", runRec0)] }

/-- The table after get_run allocated the copy. -/
def runTab1 : TableState RunM :=
  { runTab0 with heap := { cells := [(0, runRec0), (1, runRec0)], next := 2 } }

/-- The caller's mutated copy of the run. -/
def runRecMut : RunM := { id := "r1", status := "failed" }

/-- Concrete session record for the store-copy witness. -/
def sessRec0 : SessM := { id := "s1" }

/-- Concrete store table holding one session. -/
def sessTab0 : TableState SessM :=
  { heap := { cells := [(0, sessRec0)], next := 1 }, byId := [("s1", 0)], disk := [("s1", sessRec0)] }

/-- The table after get_session allocated the copy. -/
def sessTab1 : TableState SessM :=
  { sessTab0 with heap := { cells := [(0, sessRec0), (1, sessRec0)], next := 2 } }

/-- The caller's mutated copy of the session. -/
def sessRecMut : SessM := { id := "s1", status := "failed" }

/-- A concrete world for a workspace with no git repository. -/
def nonRepoWorld : CmdWorld :=
  { exitCode := fun _ => 128, stdoutOf := fun _ => "",
    stderrOf := fun _ => "fatal: not a git repository (or any of the parent directories): .git",
    durationOf := fun _ => "2ms" }

/-- Number of model rounds recorded in an event list: the count of
model_output_completed events, one per loop iteration that reached the
model call. -/
def mrCount (es : List SEvent) : Nat :=
  es.countP (fun e => e.type == "model_output_completed")

/-- Number of model rounds a state has performed. -/
def modelRounds (st : EngineState) : Nat := mrCount st.events

/-- The state reached after j non-terminating iterations of the loop
starting from st; used to describe a run in which no round reaches
quiescence. -/
def chainState (env : Env) (st : EngineState) : Nat → EngineState
  | 0 => st
  | j + 1 =>
    match execIter env j (chainState env st j) with
    | IterOut.next st2 => st2
    | out => out.state

/-- The i-th tool call returned by the max-iterations environment: a
fresh input each round, so nothing is suppressed as a duplicate. -/
def c5Call (i : Nat) : ToolCall :=
  { id := "tc5-" ++ toString i, name := "repo_tree",
    input := "\x7b\"i\":" ++ toString i ++ "\x7d" }

/-- Environment whose model returns a fresh failing read call every
round: each iteration executes one call whose result is ok=false, so no
round reaches quiescence and the loop exhausts its budget. -/
def c5Env : Env :=
  { registry := regW
    model := fun i => ("", [c5Call i])
    toolOutcome := fun _ => Outcome.result { ok := false, error := some "nope" }
    approval := fun _ => ApOutcome.decision "approve" none
    cancelAt := fun _ => false }

/-! # Theorems -/

theorem lookupPend_setPend_self (m : List (String × List String)) (id : String) (v : List String) :
    lookupPend (setPend m id v) id = v := by
  induction m with
  | nil => simp [setPend, lookupPend]
  | cons p rest ih =>
    by_cases h : p.1 = id
    · simp [setPend, lookupPend, h]
    · simpa [setPend, lookupPend, h] using ih

/-! ## C9: git_status in a non-git workspace -/

/-- C9: the claim that the git_status tool still succeeds with ok=true
and empty output in a non-git workspace is false: git exits nonzero
there, run_command raises, and GitStatusTool.invoke returns ok=false. -/
theorem c9_counterexample :
    NotGitRepoWorld nonRepoWorld ∧ (gitStatusInvoke nonRepoWorld).ok = false :=
  And.intro (And.intro rfl rfl) rfl

/-- C9 (amended): in any workspace where git status exits nonzero (in
particular a non-git workspace), GitStatusTool.invoke returns ok=false
with the command-failed error and a text part carrying the captured
stdout of the subprocess. -/
theorem c9_git_status_nonzero_exit (w : CmdWorld) (h : w.exitCode gitStatusCmd ≠ 0) :
    (gitStatusInvoke w).ok = false ∧
    (gitStatusInvoke w).error =
      some ("command failed (exit " ++ toString (w.exitCode gitStatusCmd) ++ ")") ∧
    (gitStatusInvoke w).parts = [{ type := "text", text := some (w.stdoutOf gitStatusCmd) }] := by
  have hcmd : ¬(gitStatusCmd = "") := by decide
  simp [gitStatusInvoke, runCommand, if_neg hcmd, if_neg h]

/-- Witness for C9 at the concrete non-repo world. -/
theorem c9_git_status_nonzero_exit_witness :
    (gitStatusInvoke nonRepoWorld).ok = false ∧
    (gitStatusInvoke nonRepoWorld).error =
      some ("command failed (exit " ++ toString (nonRepoWorld.exitCode gitStatusCmd) ++ ")") ∧
    (gitStatusInvoke nonRepoWorld).parts =
      [{ type := "text", text := some (nonRepoWorld.stdoutOf gitStatusCmd) }] :=
  c9_git_status_nonzero_exit nonRepoWorld (by decide)

/-! ## C7: one-shot approval waiters -/

/-- C7: require_approval and require_session_approval register a waiter
and error on a key already pending; approve and approve_session_tool_call
succeed exactly once per registered key, resolving (with the decision)
and removing the waiter, and a second call errors. -/
theorem c7_approval_exactly_once (m : List (String × List String)) (sid key : String)
    (d d' : ApprovalDecisionM) (hs : sid ≠ "") (hk : key ≠ "")
    (hfresh : key ∉ lookupPend m sid) :
    ∃ m1 m2,
      requireSessionApproval m sid key = Except.ok m1 ∧
      (∃ e, requireSessionApproval m1 sid key = Except.error e) ∧
      approveSessionToolCall m1 sid key d = Except.ok (m2, d) ∧
      key ∉ lookupPend m2 sid ∧
      (∃ e, approveSessionToolCall m2 sid key d' = Except.error e) ∧
      requireApproval m sid key = Except.ok m1 ∧
      (∃ e, requireApproval m1 sid key = Except.error e) ∧
      approve m1 sid key = Except.ok m2 ∧
      (∃ e, approve m2 sid key = Except.error e) := by
  refine ⟨setPend m sid (lookupPend m sid ++ [key]),
          setPend (setPend m sid (lookupPend m sid ++ [key])) sid (lookupPend m sid), ?_⟩
  have hpend1 : lookupPend (setPend m sid (lookupPend m sid ++ [key])) sid =
      lookupPend m sid ++ [key] := lookupPend_setPend_self m sid _
  have hpend2 : lookupPend
      (setPend (setPend m sid (lookupPend m sid ++ [key])) sid (lookupPend m sid)) sid =
      lookupPend m sid := lookupPend_setPend_self _ sid _
  have hkey1 : key ∈ lookupPend m sid ++ [key] := by simp
  have herase : (lookupPend m sid ++ [key]).erase key = lookupPend m sid := by
    rw [List.erase_append_right _ hfresh]
    simp
  refine ⟨?_, ?_, ?_, ?_, ?_, ?_, ?_, ?_, ?_⟩
  · simp [requireSessionApproval, hs, hk, hfresh]
  · simp [requireSessionApproval, hs, hk, hpend1]
  · simp [approveSessionToolCall, hpend1, hkey1, herase]
  · rw [hpend2]; exact hfresh
  · simp [approveSessionToolCall, hpend2, hfresh]
  · simp [requireApproval, hs, hk, hfresh]
  · simp [requireApproval, hs, hk, hpend1]
  · simp [approve, hpend1, hkey1, herase]
  · simp [approve, hpend2, hfresh]

/-- Witness for C7 on an empty waiter registry. -/
theorem c7_approval_exactly_once_witness :
    ∃ m1 m2,
      requireSessionApproval [] "s1" "tc1" = Except.ok m1 ∧
      (∃ e, requireSessionApproval m1 "s1" "tc1" = Except.error e) ∧
      approveSessionToolCall m1 "s1" "tc1" { action := "approve" } =
        Except.ok (m2, { action := "approve" }) ∧
      "tc1" ∉ lookupPend m2 "s1" ∧
      (∃ e, approveSessionToolCall m2 "s1" "tc1" { action := "deny" } = Except.error e) ∧
      requireApproval [] "s1" "tc1" = Except.ok m1 ∧
      (∃ e, requireApproval m1 "s1" "tc1" = Except.error e) ∧
      approve m1 "s1" "tc1" = Except.ok m2 ∧
      (∃ e, approve m2 "s1" "tc1" = Except.error e) :=
  c7_approval_exactly_once [] "s1" "tc1" { action := "approve" } { action := "deny" }
    (by decide) (by decide) (by simp [lookupPend])

/-! ## C8: event log append and read -/

theorem readEventsAux_nonpos {E : Type} (parse : String → Option E) (m : Int)
    (hm : ¬ m > 0) (lines : List String) :
    ∀ sofar, readEventsAux parse m lines sofar = lines.filterMap (lineParse parse) := by
  induction lines with
  | nil => intro sofar; simp [readEventsAux]
  | cons raw rest ih =>
    intro sofar
    by_cases hb : strTrim raw = ""
    · simp [readEventsAux, lineParse, hb, ih]
    · cases hp : parse (strTrim raw) with
      | none => simp [readEventsAux, lineParse, hb, hp, ih]
      | some e => simp [readEventsAux, lineParse, hb, hp, hm, ih]

theorem foldl_appendEventLine {E : Type} (dump : E → String) (es : List E) :
    ∀ log, es.foldl (appendEventLine dump) log = log ++ es.map dump := by
  induction es with
  | nil => intro log; simp
  | cons e rest ih => intro log; simp [appendEventLine, ih]

theorem filterMap_lineParse_dumps {E : Type} (parse : String → Option E) (dump : E → String)
    (es : List E)
    (hround : ∀ e ∈ es, strTrim (dump e) = dump e ∧ dump e ≠ "" ∧ parse (dump e) = some e) :
    (es.map dump).filterMap (lineParse parse) = es := by
  induction es with
  | nil => simp
  | cons e rest ih =>
    have he := hround e (by simp)
    have hrest : ∀ x ∈ rest, strTrim (dump x) = dump x ∧ dump x ≠ "" ∧ parse (dump x) = some x :=
      fun x hx => hround x (by simp [hx])
    simp [lineParse, he.1, he.2.1, he.2.2, ih hrest]

theorem readEventsAux_pos {E : Type} (parse : String → Option E) (n : Int) (hn : 0 < n)
    (lines : List String) :
    ∀ sofar, sofar < n →
      readEventsAux parse n lines sofar = (lines.filterMap (lineParse parse)).take (n - sofar).toNat := by
  induction lines with
  | nil => intro sofar _; simp [readEventsAux]
  | cons raw rest ih =>
    intro sofar hs
    by_cases hb : strTrim raw = ""
    · simp [readEventsAux, lineParse, hb, ih sofar hs]
    · cases hp : parse (strTrim raw) with
      | none => simp [readEventsAux, lineParse, hb, hp, ih sofar hs]
      | some e =>
        by_cases hbr : sofar + 1 ≥ n
        · have h1 : (n - sofar).toNat = 1 := by omega
          simp [readEventsAux, lineParse, hb, hp, hn, hbr, h1]
        · have hlt : sofar + 1 < n := by omega
          have h2 : (n - sofar).toNat = (n - (sofar + 1)).toNat + 1 := by omega
          simp [readEventsAux, lineParse, hb, hp, hn, hbr, h2, ih (sofar + 1) hlt]

/-- C8: appending K events and reading with n = 0 returns the previous
events followed by the K appended ones in order; a positive n returns the
first n parsed events; blank or malformed lines are skipped rather than
raising. -/
theorem c8_event_log {E : Type} (parse : String → Option E) (dump : E → String)
    (log : List String) (es : List E) (bad : String) (n : Int)
    (hround : ∀ e ∈ es, strTrim (dump e) = dump e ∧ dump e ≠ "" ∧ parse (dump e) = some e) :
    readEvents parse (es.foldl (appendEventLine dump) log) 0 = readEvents parse log 0 ++ es ∧
    (0 < n → readEvents parse log n = (readEvents parse log 0).take n.toNat) ∧
    (parse (strTrim bad) = none → readEvents parse (log ++ [bad]) 0 = readEvents parse log 0) := by
  have hz : ¬ (0 : Int) > 0 := by omega
  refine ⟨?_, ?_, ?_⟩
  · rw [readEvents, readEvents, readEventsAux_nonpos parse 0 hz _ 0,
      readEventsAux_nonpos parse 0 hz _ 0, foldl_appendEventLine, List.filterMap_append,
      filterMap_lineParse_dumps parse dump es hround]
  · intro hn
    rw [readEvents, readEvents, readEventsAux_pos parse n hn log 0 hn,
      readEventsAux_nonpos parse 0 hz _ 0]
    norm_num
  · intro hbad
    rw [readEvents, readEvents, readEventsAux_nonpos parse 0 hz _ 0,
      readEventsAux_nonpos parse 0 hz _ 0, List.filterMap_append]
    have : lineParse parse bad = none := by
      by_cases hb : strTrim bad = "" <;> simp [lineParse, hb, hbad]
    simp [this]

/-- Witness for C8 with a two-event append over a log holding one
malformed line. -/
theorem c8_event_log_witness :
    readEvents evParseW ([3, 5].foldl (appendEventLine evDumpW) ["junk"]) 0 =
      readEvents evParseW ["junk"] 0 ++ [3, 5] ∧
    ((0 : Int) < 1 →
      readEvents evParseW ["junk"] 1 = (readEvents evParseW ["junk"] 0).take (1 : Int).toNat) ∧
    (evParseW (strTrim " ") = none →
      readEvents evParseW (["junk"] ++ [" "]) 0 = readEvents evParseW ["junk"] 0) :=
  c8_event_log evParseW evDumpW ["junk"] [3, 5] " " 1 (by decide)

/-! ## C10: get and list return deep copies -/

theorem hfind_append_of_ne {α : Type} (cells : List (Nat × α)) (a b : Nat) (v : α)
    (h : b ≠ a) : hfind (cells ++ [(b, v)]) a = hfind cells a := by
  induction cells with
  | nil => simp [hfind, h]
  | cons p rest ih => by_cases hp : p.1 = a <;> simp [hfind, hp, ih]

theorem hfind_append_self {α : Type} (cells : List (Nat × α)) (b : Nat) (v : α)
    (hwf : ∀ p ∈ cells, p.1 < b) : hfind (cells ++ [(b, v)]) b = some v := by
  induction cells with
  | nil => simp [hfind]
  | cons p rest ih =>
    have hlt : p.1 < b := hwf p (by simp)
    have hne : p.1 ≠ b := Nat.ne_of_lt hlt
    have hrest : ∀ q ∈ rest, q.1 < b := fun q hq => hwf q (by simp [hq])
    simp [hfind, hne, ih hrest]

theorem hfind_hwrite_of_ne {α : Type} (cells : List (Nat × α)) (a b : Nat) (v : α)
    (h : b ≠ a) : hfind (hwriteCells cells b v) a = hfind cells a := by
  induction cells with
  | nil => simp [hwriteCells]
  | cons p rest ih =>
    by_cases hp : p.1 = b
    · have : p.1 ≠ a := by rw [hp]; exact h
      simp [hwriteCells, hfind, hp, this, h]
    · by_cases ha : p.1 = a <;> simp [hwriteCells, hfind, hp, ha, Ne.symm h, ih]

theorem hfind_hwrite_self {α : Type} (cells : List (Nat × α)) (a : Nat) (v : α)
    (h : (hfind cells a).isSome) : hfind (hwriteCells cells a v) a = some v := by
  induction cells with
  | nil => simp [hfind] at h
  | cons p rest ih =>
    by_cases hp : p.1 = a
    · simp [hwriteCells, hfind, hp]
    · simp [hfind, hp] at h
      simp [hwriteCells, hfind, hp, ih h]

theorem alookupAddr_mem (m : List (String × Nat)) (id : String) (a : Nat)
    (h : alookupAddr m id = some a) : (id, a) ∈ m := by
  induction m with
  | nil => simp [alookupAddr] at h
  | cons p rest ih =>
    rcases p with ⟨k, b⟩
    by_cases hp : k = id
    · subst hp
      simp [alookupAddr] at h
      subst h
      exact List.mem_cons_self _ _
    · simp [alookupAddr, hp] at h
      exact List.mem_cons_of_mem _ (ih h)

theorem alookupAddr_aset_self (m : List (String × Nat)) (id : String) (a : Nat) :
    alookupAddr (asetAddr m id a) id = some a := by
  induction m with
  | nil => simp [asetAddr, alookupAddr]
  | cons p rest ih => by_cases hp : p.1 = id <;> simp [asetAddr, alookupAddr, hp, ih]

theorem alookupRec_aset_self {α : Type} (m : List (String × α)) (id : String) (v : α) :
    alookupRec (asetRec m id v) id = some v := by
  induction m with
  | nil => simp [asetRec, alookupRec]
  | cons p rest ih => by_cases hp : p.1 = id <;> simp [asetRec, alookupRec, hp, ih]

theorem hallocMany_next_le {α : Type} (vs : List α) :
    ∀ h : Heap α, h.next ≤ (hallocMany h vs).1.next := by
  induction vs with
  | nil => intro h; simp [hallocMany]
  | cons v rest ih =>
    intro h
    have h1 := ih (halloc h v).1
    have h2 : (halloc h v).1.next = h.next + 1 := rfl
    simp only [hallocMany]
    omega

theorem hread_hallocMany_of_lt {α : Type} (vs : List α) :
    ∀ (h : Heap α) (b : Nat), b < h.next → hread (hallocMany h vs).1 b = hread h b := by
  induction vs with
  | nil => intro h b _; simp [hallocMany]
  | cons v rest ih =>
    intro h b hb
    have h1 : b < (halloc h v).1.next := by simp [halloc]; omega
    have h2 : hread (halloc h v).1 b = hread h b := by
      simp only [hread, halloc]
      exact hfind_append_of_ne h.cells b h.next v (by omega)
    simp only [hallocMany]
    rw [ih (halloc h v).1 b h1, h2]

theorem mem_hallocMany_addrs {α : Type} (vs : List α) :
    ∀ (h : Heap α) (a : Nat), a ∈ (hallocMany h vs).2 → h.next ≤ a := by
  induction vs with
  | nil => intro h a ha; simp [hallocMany] at ha
  | cons v rest ih =>
    intro h a ha
    simp only [hallocMany, List.mem_cons] at ha
    rcases ha with ha | ha
    · simp [halloc, ha]
    · have := ih (halloc h v).1 a ha
      simp [halloc] at this
      omega

/-- Frame lemma for getRec: after mutating the returned copy, every
stored record (and the disk) is unchanged; updateRec then installs the
mutated value under its id. -/
theorem getRec_copy_frame {α : Type} (key : α → String) (t : TableState α) (id : String)
    (t' : TableState α) (a' : Nat) (w : α) (hwf : TableWF t)
    (hget : getRec t id = Except.ok (t', a')) :
    (∀ j, storedRec { t' with heap := hwrite t'.heap a' w } j = storedRec t j) ∧
    ({ t' with heap := hwrite t'.heap a' w } : TableState α).disk = t.disk ∧
    (∀ tu, updateRec key { t' with heap := hwrite t'.heap a' w } a' = Except.ok tu →
      storedRec tu (key w) = some w ∧ alookupRec tu.disk (key w) = some w) := by
  rcases hwf with ⟨hheap, hby⟩
  cases hla : alookupAddr t.byId id with
  | none => simp [getRec, hla] at hget
  | some a =>
    cases hr : hread t.heap a with
    | none => simp [getRec, hla, hr] at hget
    | some v =>
      simp only [getRec, hla, hr, halloc, Except.ok.injEq, Prod.mk.injEq] at hget
      rcases hget with ⟨ht', ha'⟩
      subst ha'
      have hread_self : hfind (t.heap.cells ++ [(t.heap.next, v)]) t.heap.next = some v :=
        hfind_append_self t.heap.cells t.heap.next v hheap
      have hframe : ∀ j, storedRec { t' with heap := hwrite t'.heap t.heap.next w } j =
          storedRec t j := by
        intro j
        cases hlj : alookupAddr t.byId j with
        | none => simp [storedRec, ← ht', hlj]
        | some b =>
          have hb : b < t.heap.next := hby (j, b) (alookupAddr_mem t.byId j b hlj)
          have hbne : t.heap.next ≠ b := by omega
          simp only [storedRec, ← ht', hlj, hread, hwrite]
          rw [hfind_hwrite_of_ne _ b t.heap.next w hbne,
            hfind_append_of_ne t.heap.cells b t.heap.next v hbne]
      refine ⟨hframe, by simp [← ht'], ?_⟩
      intro tu hu
      have hws : hfind (hwriteCells (t.heap.cells ++ [(t.heap.next, v)]) t.heap.next w)
          t.heap.next = some w := by
        apply hfind_hwrite_self
        rw [hread_self]
        rfl
      simp only [updateRec, ← ht', hread, hwrite] at hu
      rw [hws] at hu
      simp only [Except.ok.injEq] at hu
      subst hu
      constructor
      · simp only [storedRec, alookupAddr_aset_self, hread, hwrite]
        exact hws
      · exact alookupRec_aset_self _ _ _

/-- Frame lemma for listRecs: the returned addresses are fresh copies, so
mutating any of them leaves every stored record and the disk unchanged. -/
theorem listRecs_copy_frame {α : Type} (rank : α → Nat) (t : TableState α) (a' : Nat) (w : α)
    (hwf : TableWF t) (ha : a' ∈ (listRecs rank t).2) :
    (∀ j, storedRec { (listRecs rank t).1 with heap := hwrite (listRecs rank t).1.heap a' w } j =
      storedRec t j) ∧
    ((listRecs rank t).1).disk = t.disk := by
  rcases hwf with ⟨_, hby⟩
  have hfresh : t.heap.next ≤ a' := by
    simp only [listRecs] at ha
    exact mem_hallocMany_addrs _ t.heap a' ha
  constructor
  · intro j
    cases hlj : alookupAddr t.byId j with
    | none => simp [storedRec, listRecs, hlj]
    | some b =>
      have hb : b < t.heap.next := hby (j, b) (alookupAddr_mem t.byId j b hlj)
      have hbne : a' ≠ b := by omega
      simp only [storedRec, listRecs, hlj, hread, hwrite]
      rw [hfind_hwrite_of_ne _ b a' w hbne]
      exact hread_hallocMany_of_lt _ t.heap b hb
  · simp [listRecs]

/-- C10: get_run, get_session, list_runs and list_sessions return deep
copies: mutating a returned record leaves the store's in-memory and
persisted state unchanged, until the caller passes it back through
update_run or update_session, which installs the mutated value. -/
theorem c10_get_and_list_return_copies :
    (∀ (t : TableState RunM) (id : String) (t' : TableState RunM) (a' : Nat) (w : RunM),
      TableWF t → getRun t id = Except.ok (t', a') →
        (∀ j, storedRec { t' with heap := hwrite t'.heap a' w } j = storedRec t j) ∧
        ({ t' with heap := hwrite t'.heap a' w } : TableState RunM).disk = t.disk ∧
        (∀ tu, updateRun { t' with heap := hwrite t'.heap a' w } a' = Except.ok tu →
          storedRec tu w.id = some w ∧ alookupRec tu.disk w.id = some w)) ∧
    (∀ (t : TableState SessM) (id : String) (t' : TableState SessM) (a' : Nat) (w : SessM),
      TableWF t → getSession t id = Except.ok (t', a') →
        (∀ j, storedRec { t' with heap := hwrite t'.heap a' w } j = storedRec t j) ∧
        ({ t' with heap := hwrite t'.heap a' w } : TableState SessM).disk = t.disk ∧
        (∀ tu, updateSession { t' with heap := hwrite t'.heap a' w } a' = Except.ok tu →
          storedRec tu w.id = some w ∧ alookupRec tu.disk w.id = some w)) ∧
    (∀ (t : TableState RunM) (a' : Nat) (w : RunM), TableWF t → a' ∈ (listRuns t).2 →
      (∀ j, storedRec { (listRuns t).1 with heap := hwrite (listRuns t).1.heap a' w } j =
        storedRec t j) ∧ ((listRuns t).1).disk = t.disk) ∧
    (∀ (t : TableState SessM) (a' : Nat) (w : SessM), TableWF t → a' ∈ (listSessions t).2 →
      (∀ j, storedRec { (listSessions t).1 with heap := hwrite (listSessions t).1.heap a' w } j =
        storedRec t j) ∧ ((listSessions t).1).disk = t.disk) := by
  refine ⟨?_, ?_, ?_, ?_⟩
  · intro t id t' a' w hwf hget
    exact getRec_copy_frame RunM.id t id t' a' w hwf hget
  · intro t id t' a' w hwf hget
    exact getRec_copy_frame SessM.id t id t' a' w hwf hget
  · intro t a' w hwf ha
    exact listRecs_copy_frame RunM.created_at t a' w hwf ha
  · intro t a' w hwf ha
    exact listRecs_copy_frame SessM.created_at t a' w hwf ha

/-- Witness for C10 on concrete one-record stores: mutating the copy
returned by get_run/get_session/list_runs/list_sessions leaves the stored
record unchanged, and update installs the mutated value. -/
theorem c10_get_and_list_return_copies_witness :
    (storedRec { runTab1 with heap := hwrite runTab1.heap 1 runRecMut } "r1" =
        storedRec runTab0 "r1" ∧
      ({ runTab1 with heap := hwrite runTab1.heap 1 runRecMut } : TableState RunM).disk =
        runTab0.disk) ∧
    (∀ tu, updateRun { runTab1 with heap := hwrite runTab1.heap 1 runRecMut } 1 = Except.ok tu →
      storedRec tu runRecMut.id = some runRecMut ∧
      alookupRec tu.disk runRecMut.id = some runRecMut) ∧
    (storedRec { sessTab1 with heap := hwrite sessTab1.heap 1 sessRecMut } "s1" =
        storedRec sessTab0 "s1" ∧
      (∀ tu, updateSession { sessTab1 with heap := hwrite sessTab1.heap 1 sessRecMut } 1 =
          Except.ok tu →
        storedRec tu sessRecMut.id = some sessRecMut ∧
        alookupRec tu.disk sessRecMut.id = some sessRecMut)) ∧
    (storedRec { (listRuns runTab0).1 with
        heap := hwrite (listRuns runTab0).1.heap 1 runRecMut } "r1" = storedRec runTab0 "r1") ∧
    (storedRec { (listSessions sessTab0).1 with
        heap := hwrite (listSessions sessTab0).1.heap 1 sessRecMut } "s1" =
      storedRec sessTab0 "s1") := by
  have hwfr : TableWF runTab0 := by
    constructor
    · intro p hp
      simp [runTab0] at hp
      subst hp
      decide
    · intro p hp
      simp [runTab0] at hp
      subst hp
      decide
  have hwfs : TableWF sessTab0 := by
    constructor
    · intro p hp
      simp [sessTab0] at hp
      subst hp
      decide
    · intro p hp
      simp [sessTab0] at hp
      subst hp
      decide
  have hgetr : getRun runTab0 "r1" = Except.ok (runTab1, 1) := rfl
  have hgets : getSession sessTab0 "s1" = Except.ok (sessTab1, 1) := rfl
  have hmemr : (1 : Nat) ∈ (listRuns runTab0).2 := by
    show (1 : Nat) ∈ [1]
    simp
  have hmems : (1 : Nat) ∈ (listSessions sessTab0).2 := by
    show (1 : Nat) ∈ [1]
    simp
  have hr := c10_get_and_list_return_copies.1 runTab0 "r1" runTab1 1 runRecMut hwfr hgetr
  have hs := c10_get_and_list_return_copies.2.1 sessTab0 "s1" sessTab1 1 sessRecMut hwfs hgets
  have hlr := c10_get_and_list_return_copies.2.2.1 runTab0 1 runRecMut hwfr hmemr
  have hls := c10_get_and_list_return_copies.2.2.2 sessTab0 1 sessRecMut hwfs hmems
  exact ⟨⟨hr.1 "r1", hr.2.1⟩, hr.2.2, ⟨hs.1 "s1", hs.2.2⟩, hlr.1 "r1", hls.1 "s1"⟩

/-! ## C6: read_file path safety -/

theorem commonPrefixLen_le (a : List String) : ∀ b, commonPrefixLen a b ≤ a.length := by
  induction a with
  | nil => intro b; cases b <;> simp [commonPrefixLen]
  | cons x as ih =>
    intro b
    cases b with
    | nil => simp [commonPrefixLen]
    | cons y bs =>
      by_cases hxy : x = y
      · simpa [commonPrefixLen, hxy] using ih bs
      · simp [commonPrefixLen, hxy]

theorem underRoot_iff_common (a : List String) :
    ∀ b, underRoot a b = true ↔ commonPrefixLen a b = a.length := by
  induction a with
  | nil => intro b; cases b <;> simp [underRoot, commonPrefixLen]
  | cons x as ih =>
    intro b
    cases b with
    | nil => simp [underRoot, commonPrefixLen]
    | cons y bs =>
      by_cases hxy : x = y
      · simpa [underRoot, commonPrefixLen, hxy] using ih bs
      · simp [underRoot, commonPrefixLen, hxy]

theorem safeWorkspacePath_escapes (root : List String) (rel : String)
    (h : underRoot root (resolveUnder root rel) = false) :
    ∃ m, safeWorkspacePath root rel = Except.error m := by
  by_cases hempty : strTrim rel = ""
  · exact ⟨"path is empty", by simp [safeWorkspacePath, hempty]⟩
  · have hle := commonPrefixLen_le root (resolveUnder root rel)
    have hne : commonPrefixLen root (resolveUnder root rel) ≠ root.length := by
      intro heq
      rw [← underRoot_iff_common root (resolveUnder root rel)] at heq
      rw [heq] at h
      exact Bool.true_eq_false.mp h
    have hlt : commonPrefixLen root (resolveUnder root rel) < root.length := by omega
    have hk : root.length - commonPrefixLen root (resolveUnder root rel) =
        (root.length - commonPrefixLen root (resolveUnder root rel) - 1) + 1 := by omega
    refine ⟨"path escapes workspace: " ++ rel, ?_⟩
    have hhead : (relParts root (resolveUnder root rel)).head? = some ".." := by
      simp only [relParts]
      rw [hk, List.replicate_succ, List.cons_append, List.head?_cons]
    unfold safeWorkspacePath
    rw [if_neg hempty, if_pos hhead]

theorem safeWorkspacePath_ok_under (root : List String) (rel : String) (absP : List String)
    (h : safeWorkspacePath root rel = Except.ok absP) :
    underRoot root absP = true ∧ absP = resolveUnder root rel := by
  by_cases hempty : strTrim rel = ""
  · simp [safeWorkspacePath, hempty] at h
  · simp only [safeWorkspacePath, hempty, if_false] at h
    by_cases hhead : (relParts root (resolveUnder root rel)).head? = some ".."
    · simp [hhead] at h
    · simp only [hhead, if_false, Except.ok.injEq, ite_eq_right_iff] at h
      have hk : root.length - commonPrefixLen root (resolveUnder root rel) = 0 := by
        by_contra hk0
        have : root.length - commonPrefixLen root (resolveUnder root rel) =
            (root.length - commonPrefixLen root (resolveUnder root rel) - 1) + 1 := by omega
        apply hhead
        simp only [relParts]
        rw [this, List.replicate_succ, List.cons_append, List.head?_cons]
      have hle := commonPrefixLen_le root (resolveUnder root rel)
      have heq : commonPrefixLen root (resolveUnder root rel) = root.length := by omega
      rw [← underRoot_iff_common root (resolveUnder root rel)] at heq
      exact ⟨h ▸ heq, h.symm⟩

/-- C6: a read_file call whose path resolves outside the workspace root
is rejected before any file access (the safe-path check raises, the
engine records it as an error result), and every file the tool ever opens
lies under the resolved root. -/
theorem c6_read_file_path_safety :
    (∀ (fs : List String → Option String) (root : List String) (ml : Int) (input : String)
        (fields : List (String × JVal)) (rel : String),
      jparse (if input = "" then emptyObjStr else input) = some (JVal.jobj fields) →
      (jGetField fields "path").getD (JVal.jstr "") = JVal.jstr rel →
      underRoot root (resolveUnder root rel) = false →
        (∃ m, (readFileInvoke fs root ml input).res = Except.error m) ∧
        (readFileInvoke fs root ml input).reads = []) ∧
    (∀ (fs : List String → Option String) (root : List String) (ml : Int) (input : String)
        (p : List String), p ∈ (readFileInvoke fs root ml input).reads →
      underRoot root p = true) := by
  constructor
  · intro fs root ml input fields rel hp hpath hesc
    obtain ⟨m, hm⟩ := safeWorkspacePath_escapes root rel hesc
    simp only [readFileInvoke, hp, hpath, hm]
    refine ⟨⟨m, ?_⟩, ?_⟩
    · rfl
    · trivial
  · intro fs root ml input p hmem
    simp only [readFileInvoke] at hmem
    split at hmem
    · simp at hmem
    · split at hmem
      · rename_i fields
        split at hmem
        · rename_i rel
          split at hmem
          · simp at hmem
          · rename_i absP hsafe
            have hunder := (safeWorkspacePath_ok_under _ _ _ hsafe).1
            split at hmem <;>
              first
                | (simp at hmem; rw [hmem]; exact hunder)
                | (split at hmem <;>
                    first
                      | (simp at hmem; rw [hmem]; exact hunder)
                      | (split at hmem <;> (simp at hmem; rw [hmem]; exact hunder)))
        · simp at hmem
      · simp at hmem

/-- Witness for C6 on the two mandated scenarios: a dot-dot traversal and
an absolute path outside the workspace, both against a filesystem where
the target file exists. -/
theorem c6_read_file_path_safety_witness :
    (readFileInvoke (fun _ => some "secret") wsRoot 400 inTrav).reads = [] ∧
    (readFileInvoke (fun _ => some "secret") wsRoot 400 inTrav).res =
      Except.error "path escapes workspace: ../../etc/passwd" ∧
    (readFileInvoke (fun _ => some "secret") wsRoot 400 inAbs).reads = [] ∧
    (readFileInvoke (fun _ => some "secret") wsRoot 400 inAbs).res =
      Except.error "path escapes workspace: /etc/passwd" := by
  refine ⟨?_, ?_, ?_, ?_⟩
  · exact (c6_read_file_path_safety.1 (fun _ => some "secret") wsRoot 400 inTrav
      [("path", JVal.jstr "../../etc/passwd")] "../../etc/passwd" (by rfl) (by rfl) (by rfl)).2
  · rfl
  · exact (c6_read_file_path_safety.1 (fun _ => some "secret") wsRoot 400 inAbs
      [("path", JVal.jstr "/etc/passwd")] "/etc/passwd" (by rfl) (by rfl) (by rfl)).2
  · rfl

/-! ## Engine lemmas shared by the turn-engine claims -/

theorem countGet_countSet (m : List (String × Nat)) (key k : String) (v : Nat) :
    countGet (countSet m key v) k = if key = k then v else countGet m k := by
  induction m with
  | nil => by_cases h : key = k <;> simp [countSet, countGet, h]
  | cons p rest ih =>
    by_cases hp : p.1 = key
    · by_cases h : key = k
      · subst h; simp [countSet, countGet, hp]
      · have : p.1 ≠ k := by rw [hp]; exact h
        simp [countSet, countGet, hp, h, this]
    · by_cases hk : p.1 = k
      · have hnk : ¬ key = k := by rw [← hk]; exact fun hh => hp hh.symm
        have hkk : ¬ k = key := fun hh => hnk hh.symm
        simp [countSet, countGet, hp, hk, hnk, hkk]
      · simp [countSet, countGet, hp, hk, ih]

theorem appendSkipped_counts (st : EngineState) (c : ToolCall) (r : String) :
    (appendSkipped st c r).counts = st.counts := rfl

theorem bumpCount_counts (st : EngineState) (key k : String) :
    countGet (bumpCount st key).counts k =
      if key = k then countGet st.counts key + 1 else countGet st.counts k := by
  simp [bumpCount, countGet_countSet]

theorem bumpCount_events (st : EngineState) (key : String) :
    (bumpCount st key).events = st.events := rfl

theorem scheduleCalls_counts_mono (env : Env) (calls : List ToolCall) :
    ∀ (st : EngineState) (k : String),
      countGet st.counts k ≤ countGet (excState (scheduleCalls env calls st)).counts k := by
  induction calls with
  | nil => intro st k; simp [scheduleCalls, excState]
  | cons c rest ih =>
    intro st k
    cases hreg : env.registry c.name with
    | none => simp [scheduleCalls, hreg, excState]
    | some td =>
      simp only [scheduleCalls, hreg]
      by_cases hdup : countGet st.counts (toolCallKey c) > 0
      · rw [if_pos hdup]
        have h1 := ih (appendSkipped st c "duplicate tool call: no new info") k
        rw [appendSkipped_counts] at h1
        exact h1
      · rw [if_neg hdup]
        have h1 := ih (bumpCount st (toolCallKey c)) k
        have h2 : countGet st.counts k ≤ countGet (bumpCount st (toolCallKey c)).counts k := by
          rw [bumpCount_counts]
          by_cases hk : toolCallKey c = k
          · rw [if_pos hk, hk]; omega
          · rw [if_neg hk]
        cases hrec : scheduleCalls env rest (bumpCount st (toolCallKey c)) with
        | ok st2 l2 =>
          rw [hrec] at h1
          simp only [excState] at h1 ⊢
          omega
        | raised st2 m =>
          rw [hrec] at h1
          simp only [excState] at h1 ⊢
          omega

theorem scheduleCalls_mem_count (env : Env) (pre : List ToolCall) (a : ToolCall) :
    ∀ (st st1 : EngineState) (l1 : List (ToolCall × ToolDef)),
      a ∈ pre → scheduleCalls env pre st = ExcRes.ok st1 l1 →
      0 < countGet st1.counts (toolCallKey a) := by
  induction pre with
  | nil => intro st st1 l1 hmem _; simp at hmem
  | cons c rest ih =>
    intro st st1 l1 hmem hsch
    cases hreg : env.registry c.name with
    | none => simp [scheduleCalls, hreg] at hsch
    | some td =>
      simp only [scheduleCalls, hreg] at hsch
      by_cases hdup : countGet st.counts (toolCallKey c) > 0
      · rw [if_pos hdup] at hsch
        rcases List.mem_cons.mp hmem with hc | hc
        · subst hc
          have hmono := scheduleCalls_counts_mono env rest
            (appendSkipped st a "duplicate tool call: no new info") (toolCallKey a)
          rw [hsch] at hmono
          rw [appendSkipped_counts] at hmono
          simp only [excState] at hmono
          omega
        · exact ih _ _ _ hc hsch
      · rw [if_neg hdup] at hsch
        cases hrec : scheduleCalls env rest (bumpCount st (toolCallKey c)) with
        | raised st2 m =>
          rw [hrec] at hsch
          simp at hsch
        | ok st2 l2 =>
          rw [hrec] at hsch
          simp at hsch
          obtain ⟨hst, _⟩ := hsch
          subst hst
          rcases List.mem_cons.mp hmem with hc | hc
          · subst hc
            have hmono := scheduleCalls_counts_mono env rest
              (bumpCount st (toolCallKey a)) (toolCallKey a)
            rw [hrec] at hmono
            simp only [excState] at hmono
            rw [bumpCount_counts] at hmono
            simp at hmono
            omega
          · exact ih _ _ _ hc hrec

theorem scheduleCalls_events_extends (env : Env) (calls : List ToolCall) :
    ∀ st : EngineState,
      ∃ tail, (excState (scheduleCalls env calls st)).events = st.events ++ tail := by
  induction calls with
  | nil => intro st; exact ⟨[], by simp [scheduleCalls, excState]⟩
  | cons c rest ih =>
    intro st
    cases hreg : env.registry c.name with
    | none => exact ⟨[], by simp [scheduleCalls, hreg, excState]⟩
    | some td =>
      by_cases hdup : countGet st.counts (toolCallKey c) > 0
      · obtain ⟨tail, htail⟩ := ih (appendSkipped st c "duplicate tool call: no new info")
        refine ⟨skipPairEvs c "duplicate tool call: no new info" ++ tail, ?_⟩
        simp only [scheduleCalls, hreg]
        rw [if_pos hdup, htail]
        simp [appendSkipped, pushEvs]
      · obtain ⟨tail, htail⟩ := ih (bumpCount st (toolCallKey c))
        refine ⟨tail, ?_⟩
        simp only [scheduleCalls, hreg]
        rw [if_neg hdup]
        rw [bumpCount_events] at htail
        cases hrec : scheduleCalls env rest (bumpCount st (toolCallKey c)) with
        | ok st2 l2 =>
          rw [hrec] at htail
          simp only [excState] at htail ⊢
          exact htail
        | raised st2 m =>
          rw [hrec] at htail
          simp only [excState] at htail ⊢
          exact htail

theorem scheduleCalls_append (env : Env) (pre : List ToolCall) :
    ∀ (rest : List ToolCall) (st : EngineState),
      scheduleCalls env (pre ++ rest) st =
        (match scheduleCalls env pre st with
         | ExcRes.raised st1 m => ExcRes.raised st1 m
         | ExcRes.ok st1 l1 =>
           match scheduleCalls env rest st1 with
           | ExcRes.raised st2 m => ExcRes.raised st2 m
           | ExcRes.ok st2 l2 => ExcRes.ok st2 (l1 ++ l2)) := by
  induction pre with
  | nil =>
    intro rest st
    rw [List.nil_append]
    simp only [scheduleCalls]
    cases scheduleCalls env rest st <;> simp
  | cons c pre2 ih =>
    intro rest st
    rw [List.cons_append]
    cases hreg : env.registry c.name with
    | none => simp [scheduleCalls, hreg]
    | some td =>
      simp only [scheduleCalls, hreg]
      by_cases hdup : countGet st.counts (toolCallKey c) > 0
      · rw [if_pos hdup, if_pos hdup]
        exact ih rest (appendSkipped st c "duplicate tool call: no new info")
      · rw [if_neg hdup, if_neg hdup]
        rw [ih rest (bumpCount st (toolCallKey c))]
        cases hrec : scheduleCalls env pre2 (bumpCount st (toolCallKey c)) with
        | raised st1 m => simp
        | ok st1 l1 => cases hrec2 : scheduleCalls env rest st1 <;> simp [hrec2]

/-! ## C1: duplicate-call key canonicalization -/

/-- C1 counterexample: the two inputs are the same JSON object up to key
order (their field lists are permutations), yet canonicalization gives
different keys — json.dumps preserves insertion order — so the engine
executes both calls and emits no tool_call_skipped. -/
theorem c1_counterexample :
    jparse c1CallA.input = some (JVal.jobj c1FieldsA) ∧
    jparse c1CallB.input = some (JVal.jobj c1FieldsB) ∧
    c1FieldsA.Perm c1FieldsB ∧
    c1CallA.name = c1CallB.name ∧
    toolCallKey c1CallA ≠ toolCallKey c1CallB ∧
    (executeTurn c1Env engineSt0).events.countP
      (fun e => e.type == "tool_call_skipped") = 0 ∧
    evDataOf "tool_call_started"
      { tool := some "repo_tree", tool_call_id := some "tc-1" } ∈
      (executeTurn c1Env engineSt0).events ∧
    evDataOf "tool_call_started"
      { tool := some "repo_tree", tool_call_id := some "tc-2" } ∈
      (executeTurn c1Env engineSt0).events := by
  refine ⟨rfl, rfl, ?_, rfl, ?_, ?_, ?_, ?_⟩
  · exact List.Perm.swap ("b", JVal.jnum 2) ("a", JVal.jnum 1) []
  · decide
  · decide
  · decide
  · decide

/-- C1 (amended): canonicalization collapses inputs that parse to the
same JSON value with the same field order (in particular whitespace
variants): such calls get the same key, and a later call whose key was
already counted is dropped from the batch and emits tool_call_skipped
followed by tool_call_completed with ok=false and the duplicate error.
Key order is not canonicalized, as the counterexample shows. -/
theorem c1_whitespace_duplicates_skipped :
    (∀ (a b : ToolCall) (v : JVal), a.name = b.name →
      strTrim a.input ≠ "null" → strTrim b.input ≠ "null" →
      jparse (strTrim a.input) = some v → jparse (strTrim b.input) = some v →
      toolCallKey a = toolCallKey b) ∧
    (∀ (env : Env) (pre : List ToolCall) (a b : ToolCall) (rest : List ToolCall)
        (st st1 : EngineState) (l1 : List (ToolCall × ToolDef)) (td : ToolDef),
      env.registry b.name = some td →
      scheduleCalls env pre st = ExcRes.ok st1 l1 →
      a ∈ pre → toolCallKey a = toolCallKey b →
      scheduleCalls env (pre ++ b :: rest) st =
        (match scheduleCalls env rest (appendSkipped st1 b dupReason) with
         | ExcRes.raised st2 m => ExcRes.raised st2 m
         | ExcRes.ok st2 l2 => ExcRes.ok st2 (l1 ++ l2)) ∧
      (appendSkipped st1 b dupReason).events = st1.events ++
        [ evDataOf "tool_call_skipped"
            { tool := some b.name, tool_call_id := some b.id, reason := some dupReason },
          evDataOf "tool_call_completed"
            { tool := some b.name, tool_call_id := some b.id, ok := some false,
              error := some dupReason, skipped := some true } ] ∧
      ∃ tail, (excState (scheduleCalls env (pre ++ b :: rest) st)).events = st1.events ++
        [ evDataOf "tool_call_skipped"
            { tool := some b.name, tool_call_id := some b.id, reason := some dupReason },
          evDataOf "tool_call_completed"
            { tool := some b.name, tool_call_id := some b.id, ok := some false,
              error := some dupReason, skipped := some true } ] ++ tail) := by
  constructor
  · intro a b v hn ha hb hpa hpb
    have hae : strTrim a.input ≠ "" := by
      intro h; rw [h] at hpa; simp [jparse, parseVal, skipWs] at hpa
    have hbe : strTrim b.input ≠ "" := by
      intro h; rw [h] at hpb; simp [jparse, parseVal, skipWs] at hpb
    simp only [toolCallKey, normalizeToolInput, hae, hbe, ha, hb, hpa, hpb, hn]
  · intro env pre a b rest st st1 l1 td hreg hsch hmem hkey
    have hcount : 0 < countGet st1.counts (toolCallKey b) := by
      rw [← hkey]; exact scheduleCalls_mem_count env pre a st st1 l1 hmem hsch
    have hstep : scheduleCalls env (b :: rest) st1 =
        scheduleCalls env rest (appendSkipped st1 b dupReason) := by
      simp only [scheduleCalls, hreg, dupReason]
      rw [if_pos hcount]
    have hmain : scheduleCalls env (pre ++ b :: rest) st =
        (match scheduleCalls env rest (appendSkipped st1 b dupReason) with
         | ExcRes.raised st2 m => ExcRes.raised st2 m
         | ExcRes.ok st2 l2 => ExcRes.ok st2 (l1 ++ l2)) := by
      rw [scheduleCalls_append env pre (b :: rest) st]
      simp only [hsch]
      rw [hstep]
    have hskipev : (appendSkipped st1 b dupReason).events = st1.events ++
        [ evDataOf "tool_call_skipped"
            { tool := some b.name, tool_call_id := some b.id, reason := some dupReason },
          evDataOf "tool_call_completed"
            { tool := some b.name, tool_call_id := some b.id, ok := some false,
              error := some dupReason, skipped := some true } ] := rfl
    refine ⟨hmain, hskipev, ?_⟩
    obtain ⟨tail, htail⟩ := scheduleCalls_events_extends env rest (appendSkipped st1 b dupReason)
    refine ⟨tail, ?_⟩
    rw [hmain]
    rw [hskipev] at htail
    cases hrec : scheduleCalls env rest (appendSkipped st1 b dupReason) with
    | ok st2 l2 =>
      rw [hrec] at htail
      simp only [excState] at htail ⊢
      rw [htail, List.append_assoc]
    | raised st2 m =>
      rw [hrec] at htail
      simp only [excState] at htail ⊢
      rw [htail, List.append_assoc]

/-- Witness for the amended C1 at the concrete whitespace pair: same key,
and the second call in the batch is dropped with the skipped events. -/
theorem c1_whitespace_duplicates_skipped_witness :
    toolCallKey dwCallA = toolCallKey dwCallB ∧
    scheduleCalls dwEnv ([dwCallA] ++ dwCallB :: []) engineSt0 =
      (match scheduleCalls dwEnv []
          (appendSkipped (excState (scheduleCalls dwEnv [dwCallA] engineSt0)) dwCallB dupReason) with
       | ExcRes.raised st2 m => ExcRes.raised st2 m
       | ExcRes.ok st2 l2 => ExcRes.ok st2 ([(dwCallA, rtDefW)] ++ l2)) := by
  have h1 := c1_whitespace_duplicates_skipped.1 dwCallA dwCallB
    (JVal.jobj [("a", JVal.jnum 1)]) rfl (by decide) (by decide) (by rfl) (by rfl)
  have hsch : scheduleCalls dwEnv [dwCallA] engineSt0 =
      ExcRes.ok (excState (scheduleCalls dwEnv [dwCallA] engineSt0)) [(dwCallA, rtDefW)] := by
    rfl
  have h2 := (c1_whitespace_duplicates_skipped.2 dwEnv [dwCallA] dwCallA dwCallB []
    engineSt0 (excState (scheduleCalls dwEnv [dwCallA] engineSt0)) [(dwCallA, rtDefW)] rtDefW
    (by rfl) hsch (by simp) h1).1
  exact ⟨h1, h2⟩

/-! ## C2: an all-duplicates iteration reaches the quiescence path -/

theorem scheduleCalls_all_dups (env : Env) (calls : List ToolCall) :
    ∀ s : EngineState,
      (∀ c ∈ calls, (env.registry c.name).isSome ∧ 0 < countGet s.counts (toolCallKey c)) →
      ∃ s2, scheduleCalls env calls s = ExcRes.ok s2 [] ∧ s2.counts = s.counts ∧
        s2.dirty = s.dirty ∧ s2.messages = s.messages ∧ s2.nextId = s.nextId ∧
        s2.sessionStatus = s.sessionStatus ∧ s2.turnStatus = s.turnStatus ∧
        ∃ tail, s2.events = s.events ++ tail := by
  induction calls with
  | nil =>
    intro s _
    exact ⟨s, by simp [scheduleCalls], rfl, rfl, rfl, rfl, rfl, rfl, [], by simp⟩
  | cons c rest ih =>
    intro s hall
    obtain ⟨hregs, hcnt⟩ := hall c (by simp)
    obtain ⟨td, hreg⟩ := Option.isSome_iff_exists.mp hregs
    have hrest : ∀ x ∈ rest, (env.registry x.name).isSome ∧
        0 < countGet (appendSkipped s c "duplicate tool call: no new info").counts
          (toolCallKey x) := by
      intro x hx
      rw [appendSkipped_counts]
      exact hall x (by simp [hx])
    obtain ⟨s2, hs2, hc2, hd2, hm2, hn2, hss2, hts2, tail, hev⟩ :=
      ih (appendSkipped s c "duplicate tool call: no new info") hrest
    refine ⟨s2, ?_, ?_, hd2, hm2, hn2, hss2, hts2,
      skipPairEvs c "duplicate tool call: no new info" ++ tail, ?_⟩
    · simp only [scheduleCalls, hreg]
      rw [if_pos hcnt]
      exact hs2
    · rw [hc2, appendSkipped_counts]
    · rw [hev]
      simp [appendSkipped, pushEvs]

theorem invokeVerify_adds_verify_event (env : Env) (s : EngineState) (vd : ToolDef)
    (h : env.registry "verify" = some vd) :
    ∃ tail, (excState (invokeVerify env s)).events = s.events ++ tail ∧
      ∃ e ∈ tail, ∃ d, e.data = some d ∧ d.tool = some "verify" := by
  simp only [invokeVerify, h, freshCallId]
  by_cases hap : requiresApproval env vd = true
  · rw [if_pos hap]
    cases hdec : env.approval ("call-" ++ toString s.nextId) with
    | canceledWait r =>
      dsimp only
      refine ⟨[evDataOf "approval_requested"
          { tool := some "verify", tool_call_id := some ("call-" ++ toString s.nextId) }], ?_,
        evDataOf "approval_requested"
          { tool := some "verify", tool_call_id := some ("call-" ++ toString s.nextId) },
        by simp,
        { tool := some "verify", tool_call_id := some ("call-" ++ toString s.nextId) }, rfl, rfl⟩
      simp [excState, pushEv]
    | decision action reason =>
      dsimp only
      by_cases hda : action = "deny"
      · rw [if_pos hda]
        refine ⟨[evDataOf "approval_requested"
            { tool := some "verify", tool_call_id := some ("call-" ++ toString s.nextId) }], ?_,
          evDataOf "approval_requested"
            { tool := some "verify", tool_call_id := some ("call-" ++ toString s.nextId) },
          by simp,
          { tool := some "verify", tool_call_id := some ("call-" ++ toString s.nextId) }, rfl, rfl⟩
        simp [excState, pushEv]
      · rw [if_neg hda]
        refine ⟨[ evDataOf "approval_requested"
              { tool := some "verify", tool_call_id := some ("call-" ++ toString s.nextId) },
            evDataOf "tool_call_started"
              { tool := some "verify", tool_call_id := some ("call-" ++ toString s.nextId) },
            evDataOf "tool_call_completed"
              { tool := some "verify", tool_call_id := some ("call-" ++ toString s.nextId),
                ok := some (resolveOutcome (env.toolOutcome
                  { id := "call-" ++ toString s.nextId, name := "verify",
                    input := emptyObjStr })).ok,
                error := (resolveOutcome (env.toolOutcome
                  { id := "call-" ++ toString s.nextId, name := "verify",
                    input := emptyObjStr })).error },
            evDataOf "message_added"
              { message_id := some ("msg-" ++ toString (s.nextId + 1)), role := some "tool" } ],
          ?_,
          evDataOf "approval_requested"
            { tool := some "verify", tool_call_id := some ("call-" ++ toString s.nextId) },
          by simp,
          { tool := some "verify", tool_call_id := some ("call-" ++ toString s.nextId) }, rfl, rfl⟩
        simp [excState, appendMessage, pushEv]
  · rw [if_neg hap]
    refine ⟨[ evDataOf "tool_call_started"
          { tool := some "verify", tool_call_id := some ("call-" ++ toString s.nextId) },
        evDataOf "tool_call_completed"
          { tool := some "verify", tool_call_id := some ("call-" ++ toString s.nextId),
            ok := some (resolveOutcome (env.toolOutcome
              { id := "call-" ++ toString s.nextId, name := "verify",
                input := emptyObjStr })).ok,
            error := (resolveOutcome (env.toolOutcome
              { id := "call-" ++ toString s.nextId, name := "verify",
                input := emptyObjStr })).error },
        evDataOf "message_added"
          { message_id := some ("msg-" ++ toString (s.nextId + 1)), role := some "tool" } ],
      ?_,
      evDataOf "tool_call_started"
        { tool := some "verify", tool_call_id := some ("call-" ++ toString s.nextId) },
      by simp,
      { tool := some "verify", tool_call_id := some ("call-" ++ toString s.nextId) }, rfl, rfl⟩
    simp [excState, appendMessage, pushEv]

/-- C2: in an iteration where the model returned at least one tool call
but every call was suppressed as a duplicate, the engine takes the
quiescence path: with auto-verify on and a dirty workspace it invokes the
verify hook (a verify event is appended), and otherwise it completes the
turn with turn_completed; it never just moves on to the next iteration
without one of the two. -/
theorem c2_all_duplicates_quiesce (env : Env) (i : Nat) (st : EngineState)
    (text : String) (calls : List ToolCall) (vd : ToolDef)
    (hcancel : env.cancelAt i = false)
    (hmodel : env.model i = (text, calls))
    (hcalls : calls ≠ [])
    (hdups : ∀ c ∈ calls, (env.registry c.name).isSome ∧ 0 < countGet st.counts (toolCallKey c))
    (hverify : env.registry "verify" = some vd) :
    (¬(env.autoVerify = true ∧ st.dirty = true) →
      ∃ stf, execIter env i st = IterOut.finished stf ∧ stf.turnStatus = "succeeded" ∧
        stf.sessionStatus = "active" ∧ stf.events.getLast? = some (evOf "turn_completed")) ∧
    ((env.autoVerify = true ∧ st.dirty = true) →
      ∃ tail, (IterOut.state (execIter env i st)).events = st.events ++ tail ∧
        ∃ e ∈ tail, ∃ d, e.data = some d ∧ d.tool = some "verify") := by
  simp only [execIter, hcancel, hmodel, Bool.false_eq_true, if_false]
  set st0 := (if text ≠ "" then
    pushEv st (evDataOf "model_output_delta" { delta := some text }) else st) with hst0
  set st1 := pushEv st0
    (evDataOf "model_output_completed" { finish_reason := env.finishReason i }) with hst1
  have hst0counts : st0.counts = st.counts := by
    rw [hst0]; by_cases htext : text = "" <;> simp [pushEv, htext]
  have hst0dirty : st0.dirty = st.dirty := by
    rw [hst0]; by_cases htext : text = "" <;> simp [pushEv, htext]
  have hst0ev : ∃ t, st0.events = st.events ++ t := by
    rw [hst0]
    by_cases htext : text = ""
    · exact ⟨[], by simp [htext]⟩
    · exact ⟨[evDataOf "model_output_delta" { delta := some text }],
        by simp [pushEv, htext]⟩
  have hdups1 : ∀ c ∈ calls, (env.registry c.name).isSome ∧
      0 < countGet st1.counts (toolCallKey c) := by
    intro c hc
    have : st1.counts = st.counts := by rw [hst1, pushEv]; exact hst0counts
    rw [this]
    exact hdups c hc
  obtain ⟨s2, hs2, hc2, hd2, hm2, hn2, hss2, hts2, tail0, hev2⟩ :=
    scheduleCalls_all_dups env calls st1 hdups1
  rw [hs2]
  dsimp only
  simp only [List.map_nil, List.append_nil]
  have hs2dirty : s2.dirty = st.dirty := by
    rw [hd2, hst1, pushEv]; exact hst0dirty
  have hs2ev : ∃ t, s2.events = st.events ++ t := by
    obtain ⟨t0, ht0⟩ := hst0ev
    refine ⟨t0 ++ [evDataOf "model_output_completed" { finish_reason := env.finishReason i }]
      ++ tail0, ?_⟩
    rw [hev2, hst1, pushEv]
    simp [ht0]
  set parts := (if strTrim text ≠ "" then
    [({ type := "text", text := some text } : MsgPart)] else []) with hparts
  set st2 := (if parts.isEmpty then s2 else appendMessage s2 "assistant" parts none) with hst2
  have hst2dirty : st2.dirty = st.dirty := by
    rw [hst2]
    by_cases hpe : parts.isEmpty <;> simp [hpe, appendMessage, pushEv, hs2dirty]
  have hst2ev : ∃ t, st2.events = st.events ++ t := by
    obtain ⟨t2, ht2⟩ := hs2ev
    rw [hst2]
    by_cases hpe : parts.isEmpty
    · exact ⟨t2, by simp [hpe, ht2]⟩
    · exact ⟨t2 ++ [evDataOf "message_added"
        { message_id := some ("msg-" ++ toString s2.nextId), role := some "assistant" }],
        by simp [hpe, appendMessage, pushEv, ht2]⟩
  have hne : calls.isEmpty = false := by
    cases calls with
    | nil => exact absurd rfl hcalls
    | cons a l => rfl
  rw [hne]
  simp only [Bool.false_eq_true, if_false]
  have hexecnil : execCalls env [] 0 st2 = ExcRes.ok st2 0 := rfl
  rw [hexecnil]
  simp only [if_pos rfl]
  constructor
  · intro hnot
    have hcond : (env.autoVerify && st2.dirty) = false := by
      rw [hst2dirty]
      cases hav : env.autoVerify with
      | false => rfl
      | true =>
        cases hdt : st.dirty with
        | false => rfl
        | true => exact absurd ⟨hav, hdt⟩ hnot
    rw [hcond]
    simp only [Bool.false_eq_true, if_false]
    refine ⟨completeTurn st2, rfl, rfl, rfl, ?_⟩
    simp [completeTurn, pushEv]
  · intro hyes
    have hcond : (env.autoVerify && st2.dirty) = true := by
      rw [hst2dirty, hyes.1, hyes.2]; rfl
    rw [hcond]
    simp only [if_true]
    obtain ⟨tailv, hevv, e, hmemv, hd⟩ := invokeVerify_adds_verify_event env st2 vd hverify
    obtain ⟨tA, htA⟩ := hst2ev
    cases hinv : invokeVerify env st2 with
    | raised sv m =>
      rw [hinv] at hevv
      simp only [excState] at hevv
      refine ⟨tA ++ tailv, ?_, e, by simp [hmemv], hd⟩
      dsimp only [IterOut.state]
      rw [hevv, htA, List.append_assoc]
    | ok sv okv =>
      rw [hinv] at hevv
      simp only [excState] at hevv
      by_cases hok : okv = true
      · rw [hok]
        dsimp only
        refine ⟨tA ++ tailv ++ [evOf "turn_completed"], ?_, e, by simp [hmemv], hd⟩
        simp only [Bool.not_true, Bool.false_eq_true, if_false, IterOut.state, completeTurn,
          pushEv]
        rw [hevv, htA]
        simp [List.append_assoc]
      · have hok2 : okv = false := by
          cases okv
          · rfl
          · exact absurd rfl hok
        rw [hok2]
        dsimp only
        refine ⟨tA ++ tailv, ?_, e, by simp [hmemv], hd⟩
        simp only [Bool.not_false, if_true, IterOut.state]
        rw [hevv, htA, List.append_assoc]

/-- Witness for C2: with the call's key already counted, a clean
iteration completes the turn, and a dirty one invokes the verify hook. -/
theorem c2_all_duplicates_quiesce_witness :
    (∃ stf, execIter c2Env 0 c2St = IterOut.finished stf ∧ stf.turnStatus = "succeeded" ∧
      stf.sessionStatus = "active" ∧ stf.events.getLast? = some (evOf "turn_completed")) ∧
    (∃ tail, (IterOut.state (execIter c2Env 0 c2StDirty)).events = c2StDirty.events ++ tail ∧
      ∃ e ∈ tail, ∃ d, e.data = some d ∧ d.tool = some "verify") := by
  constructor
  · exact (c2_all_duplicates_quiesce c2Env 0 c2St "" [dwCallA] vDefW rfl rfl (by decide)
      (by decide) rfl).1 (by decide)
  · exact (c2_all_duplicates_quiesce c2Env 0 c2StDirty "" [dwCallA] vDefW rfl rfl (by decide)
      (by decide) rfl).2 ⟨rfl, rfl⟩

/-! ## C3: failed tool results versus tool exceptions -/

/-- C3 counterexample: a tool whose invoke raises an exception does not
fail the turn — the engine catches it (session_runner lines 233-236) and
converts it to an ok=false result, and the turn later succeeds. -/
theorem c3_counterexample :
    (executeTurn c3EnvExn engineSt0).turnStatus = "succeeded" ∧
    (executeTurn c3EnvExn engineSt0).sessionStatus = "active" ∧
    evDataOf "tool_call_completed"
      { tool := some "repo_tree", tool_call_id := some "tc-e", ok := some false,
        error := some "boom" } ∈ (executeTurn c3EnvExn engineSt0).events ∧
    (executeTurn c3EnvExn engineSt0).events.countP (fun e => e.type == "turn_failed") = 0 := by
  refine ⟨rfl, rfl, ?_, ?_⟩
  · decide
  · decide

/-- C3 (amended): an ok=false result and an exception raised by
tool.invoke are handled identically: both are recorded as
tool_call_completed with ok=false and the error, both break the current
call batch (no events for the remaining calls), and the iteration
continues to the next round instead of failing the turn.  Only
exceptions outside tool invocation (unknown tool, denied approval) fail
the turn. -/
theorem c3_failed_call_breaks_batch (env : Env) (c : ToolCall) (tool : ToolDef)
    (rest : List (ToolCall × ToolDef)) (n : Nat) (st : EngineState) (e : String)
    (ps : List MsgPart)
    (hap : requiresApproval env tool = false)
    (hspec : env.specMode = false)
    (hout : resolveOutcome (env.toolOutcome c) = { ok := false, error := some e, parts := ps }) :
    (∃ stf, execCalls env ((c, tool) :: rest) n st = ExcRes.ok stf (n + 1) ∧
      stf.events = st.events ++
        [ evDataOf "tool_call_started" { tool := some c.name, tool_call_id := some c.id },
          evDataOf "tool_call_completed"
            { tool := some c.name, tool_call_id := some c.id, ok := some false,
              error := some e },
          evDataOf "message_added"
            { message_id := some ("msg-" ++ toString st.nextId), role := some "tool" } ]) ∧
    (∀ i : Nat,
      env.cancelAt i = false →
      env.model i = ("", [c]) →
      env.registry c.name = some tool →
      countGet st.counts (toolCallKey c) = 0 →
      ∃ stf, execIter env i st = IterOut.next stf) := by
  have hspec2 : (env.specMode && decide (c.name = "write_spec")) = false := by
    rw [hspec]; rfl
  have hbatch : ∀ (rest2 : List (ToolCall × ToolDef)) (n2 : Nat) (s : EngineState),
      ∃ stf, execCalls env ((c, tool) :: rest2) n2 s = ExcRes.ok stf (n2 + 1) ∧
      stf.events = s.events ++
        [ evDataOf "tool_call_started" { tool := some c.name, tool_call_id := some c.id },
          evDataOf "tool_call_completed"
            { tool := some c.name, tool_call_id := some c.id, ok := some false,
              error := some e },
          evDataOf "message_added"
            { message_id := some ("msg-" ++ toString s.nextId), role := some "tool" } ] := by
    intro rest2 n2 s
    cases hE : execCalls env ((c, tool) :: rest2) n2 s with
    | raised stf m =>
      simp only [execCalls, hap, Bool.false_eq_true, if_false, hout, hspec, hspec2,
        Bool.false_and, Bool.not_false, if_true] at hE
      split at hE <;> exact ExcRes.noConfusion hE
    | ok stf nf =>
      simp only [execCalls, hap, Bool.false_eq_true, if_false, hout, hspec, hspec2,
        Bool.false_and, Bool.not_false, if_true, ExcRes.ok.injEq] at hE
      obtain ⟨hstf, hnf⟩ := hE
      refine ⟨stf, ?_, ?_⟩
      · rw [← hnf]
      · rw [← hstf]
        split <;> simp [appendMessage, pushEv]
  constructor
  · exact hbatch rest n st
  · intro i hcancel hmodel hreg hcount
    simp only [execIter, hcancel, hmodel, Bool.false_eq_true, if_false, ne_eq,
      not_true_eq_false, if_false, List.map_cons, List.map_nil, List.nil_append]
    have hc0 : countGet (pushEv st (evDataOf "model_output_completed"
        { finish_reason := env.finishReason i })).counts (toolCallKey c) = 0 := hcount
    have hsingle : scheduleCalls env [c] (pushEv st (evDataOf "model_output_completed"
        { finish_reason := env.finishReason i })) =
        ExcRes.ok (bumpCount (pushEv st (evDataOf "model_output_completed"
          { finish_reason := env.finishReason i })) (toolCallKey c)) [(c, tool)] := by
      simp only [scheduleCalls, hreg, hc0]
      rfl
    rw [hsingle]
    dsimp only
    simp only [show strTrim "" = "" from rfl, List.map_cons, List.map_nil, List.isEmpty_cons,
      Bool.false_eq_true, if_false, eq_self_iff_true, not_true, List.nil_append]
    obtain ⟨stf, hstf, _⟩ := hbatch [] 0 (appendMessage (bumpCount (pushEv st
      (evDataOf "model_output_completed" { finish_reason := env.finishReason i }))
      (toolCallKey c)) "assistant"
      [{ type := "tool_use", tool_call_id := some c.id, tool_name := some c.name,
         tool_input := some (parseToolInput c.input) }] none)
    rw [hstf]
    dsimp only
    exact ⟨stf, rfl⟩

/-- Witness for C3 on both failure modes: the raised exception and the
clean ok=false result produce the same batch behaviour and the iteration
continues. -/
theorem c3_failed_call_breaks_batch_witness :
    (∃ stf, execCalls c3EnvExn [(c3Call, rtDefW)] 0 engineSt0 = ExcRes.ok stf (0 + 1) ∧
      stf.events = engineSt0.events ++
        [ evDataOf "tool_call_started" { tool := some "repo_tree", tool_call_id := some "tc-e" },
          evDataOf "tool_call_completed"
            { tool := some "repo_tree", tool_call_id := some "tc-e", ok := some false,
              error := some "boom" },
          evDataOf "message_added"
            { message_id := some ("msg-" ++ toString engineSt0.nextId), role := some "tool" } ]) ∧
    (∃ stf, execIter c3EnvExn 0 engineSt0 = IterOut.next stf) ∧
    (∃ stf, execIter c3EnvFalse 0 engineSt0 = IterOut.next stf) := by
  have h1 := c3_failed_call_breaks_batch c3EnvExn c3Call rtDefW [] 0 engineSt0 "boom" []
    rfl rfl rfl
  have h2 := c3_failed_call_breaks_batch c3EnvFalse c3Call rtDefW [] 0 engineSt0 "nope" []
    rfl rfl rfl
  refine ⟨?_, ?_, ?_⟩
  · have := h1.1
    simpa using this
  · exact h1.2 0 rfl rfl rfl (by decide)
  · exact h2.2 0 rfl rfl rfl (by decide)

/-! ## C4: cancellation semantics -/

/-- C4 counterexample: when the cancel token fires while the engine is
blocked in an approval wait, the raised cancel cause goes through
_fail_turn, not _cancel_turn: the session ends failed, a turn_failed
event (not a canceled event) is emitted, and no verify is attempted. -/
theorem c4_counterexample :
    (executeTurn c4Env engineSt0).sessionStatus = "failed" ∧
    ¬ (executeTurn c4Env engineSt0).sessionStatus = "canceled" ∧
    (executeTurn c4Env engineSt0).events.countP
      (fun e => e.type == "session_canceled") = 0 ∧
    (executeTurn c4Env engineSt0).events.getLast? = some (evMsgOf "turn_failed" "canceled") ∧
    (executeTurn c4Env engineSt0).events.countP
      (fun e => (e.data.map (fun d => d.tool == some "verify")).getD false) = 0 := by
  refine ⟨rfl, by decide, by decide, by decide, by decide⟩

/-- C4 (amended): cancellation observed at the top of an iteration
transitions the session to canceled, emits exactly one session_canceled
event and nothing else (in particular no verify); but cancellation firing
during an approval wait surfaces as a raised cancel cause that fails the
turn: the session ends failed with a turn_failed event, again with no
verify and no canceled event. -/
theorem c4_cancel_paths (env : Env) :
    (∀ (i : Nat) (st : EngineState), env.cancelAt i = true →
      execIter env i st = IterOut.finished (cancelTurn st env.cancelReason) ∧
      (cancelTurn st env.cancelReason).sessionStatus = "canceled" ∧
      (cancelTurn st env.cancelReason).turnStatus = "failed" ∧
      (cancelTurn st env.cancelReason).events =
        st.events ++ [evMsgOf "session_canceled" env.cancelReason]) ∧
    (∀ (st0 : EngineState) (c : ToolCall) (tool : ToolDef) (r : String),
      env.cancelAt 0 = false →
      env.model 0 = ("", [c]) →
      env.registry c.name = some tool →
      requiresApproval env tool = true →
      env.approval c.id = ApOutcome.canceledWait r →
      countGet st0.counts (toolCallKey c) = 0 →
      (executeTurn env st0).sessionStatus = "failed" ∧
      (executeTurn env st0).turnError = r ∧
      (executeTurn env st0).events = st0.events ++
        [ evOf "turn_started",
          evDataOf "model_resolved" { model := some env.modelId },
          evDataOf "model_output_completed" { finish_reason := env.finishReason 0 },
          evDataOf "message_added"
            { message_id := some ("msg-" ++ toString st0.nextId), role := some "assistant" },
          evDataOf "approval_requested" { tool := some c.name, tool_call_id := some c.id },
          evMsgOf "turn_failed" r ]) := by
  constructor
  · intro i st h
    refine ⟨?_, rfl, rfl, rfl⟩
    simp only [execIter, h, if_true]
  · intro st0 c tool r hcancel hmodel hreg hap happ hcount
    have hc0 : countGet (pushEv (initTurn env st0) (evDataOf "model_output_completed"
        { finish_reason := env.finishReason 0 })).counts (toolCallKey c) = 0 := hcount
    have hsingle : scheduleCalls env [c] (pushEv (initTurn env st0)
        (evDataOf "model_output_completed" { finish_reason := env.finishReason 0 })) =
        ExcRes.ok (bumpCount (pushEv (initTurn env st0)
          (evDataOf "model_output_completed" { finish_reason := env.finishReason 0 }))
          (toolCallKey c)) [(c, tool)] := by
      simp only [scheduleCalls, hreg, hc0]
      rfl
    cases hE : execIter env 0 (initTurn env st0) with
    | finished s2 =>
      rw [show execIter env 0 (initTurn env st0) =
          IterOut.raised (pushEv { (appendMessage (bumpCount (pushEv (initTurn env st0)
            (evDataOf "model_output_completed" { finish_reason := env.finishReason 0 }))
            (toolCallKey c)) "assistant"
            [{ type := "tool_use", tool_call_id := some c.id, tool_name := some c.name,
               tool_input := some (parseToolInput c.input) }] none) with
            sessionStatus := "waiting_approval", turnStatus := "waiting_approval" }
            (evDataOf "approval_requested"
              { tool := some c.name, tool_call_id := some c.id })) r from ?_] at hE
      · exact IterOut.noConfusion hE
      · simp only [execIter, hcancel, hmodel, Bool.false_eq_true, if_false, ne_eq,
          show strTrim "" = "" from rfl, List.map_cons, List.map_nil, List.isEmpty_cons,
          eq_self_iff_true, not_true, List.nil_append, hsingle]
        simp only [execCalls, hap, if_true, happ]
    | next s2 =>
      rw [show execIter env 0 (initTurn env st0) =
          IterOut.raised (pushEv { (appendMessage (bumpCount (pushEv (initTurn env st0)
            (evDataOf "model_output_completed" { finish_reason := env.finishReason 0 }))
            (toolCallKey c)) "assistant"
            [{ type := "tool_use", tool_call_id := some c.id, tool_name := some c.name,
               tool_input := some (parseToolInput c.input) }] none) with
            sessionStatus := "waiting_approval", turnStatus := "waiting_approval" }
            (evDataOf "approval_requested"
              { tool := some c.name, tool_call_id := some c.id })) r from ?_] at hE
      · exact IterOut.noConfusion hE
      · simp only [execIter, hcancel, hmodel, Bool.false_eq_true, if_false, ne_eq,
          show strTrim "" = "" from rfl, List.map_cons, List.map_nil, List.isEmpty_cons,
          eq_self_iff_true, not_true, List.nil_append, hsingle]
        simp only [execCalls, hap, if_true, happ]
    | raised s2 m =>
      have hE2 : execIter env 0 (initTurn env st0) =
          IterOut.raised (pushEv { (appendMessage (bumpCount (pushEv (initTurn env st0)
            (evDataOf "model_output_completed" { finish_reason := env.finishReason 0 }))
            (toolCallKey c)) "assistant"
            [{ type := "tool_use", tool_call_id := some c.id, tool_name := some c.name,
               tool_input := some (parseToolInput c.input) }] none) with
            sessionStatus := "waiting_approval", turnStatus := "waiting_approval" }
            (evDataOf "approval_requested"
              { tool := some c.name, tool_call_id := some c.id })) r := by
        simp only [execIter, hcancel, hmodel, Bool.false_eq_true, if_false, ne_eq,
          show strTrim "" = "" from rfl, List.map_cons, List.map_nil, List.isEmpty_cons,
          eq_self_iff_true, not_true, List.nil_append, hsingle]
        simp only [execCalls, hap, if_true, happ]
      have hrun : executeTurn env st0 = failTurn (pushEv
          { (appendMessage (bumpCount (pushEv (initTurn env st0)
            (evDataOf "model_output_completed" { finish_reason := env.finishReason 0 }))
            (toolCallKey c)) "assistant"
            [{ type := "tool_use", tool_call_id := some c.id, tool_name := some c.name,
               tool_input := some (parseToolInput c.input) }] none) with
            sessionStatus := "waiting_approval", turnStatus := "waiting_approval" }
          (evDataOf "approval_requested"
            { tool := some c.name, tool_call_id := some c.id })) r := by
        have h8 : maxTurns = 7 + 1 := rfl
        simp only [executeTurn, h8, runLoop, hE2]
      rw [hrun]
      refine ⟨rfl, rfl, ?_⟩
      simp [failTurn, pushEv, appendMessage, bumpCount, initTurn, evOf, evDataOf, evMsgOf]

/-- Witness for C4 at concrete inputs: both the iteration-top
cancellation and the end-to-end approval-wait cancellation. -/
theorem c4_cancel_paths_witness :
    (execIter { c4Env with cancelAt := fun _ => true } 0 engineSt0 =
      IterOut.finished (cancelTurn engineSt0
        ({ c4Env with cancelAt := fun _ => true } : Env).cancelReason) ∧
      (cancelTurn engineSt0 ({ c4Env with cancelAt := fun _ => true } : Env).cancelReason).sessionStatus
        = "canceled" ∧
      (cancelTurn engineSt0 ({ c4Env with cancelAt := fun _ => true } : Env).cancelReason).turnStatus
        = "failed" ∧
      (cancelTurn engineSt0 ({ c4Env with cancelAt := fun _ => true } : Env).cancelReason).events =
        engineSt0.events ++ [evMsgOf "session_canceled"
          ({ c4Env with cancelAt := fun _ => true } : Env).cancelReason]) ∧
    ((executeTurn c4Env engineSt0).sessionStatus = "failed" ∧
      (executeTurn c4Env engineSt0).turnError = "canceled") := by
  constructor
  · exact (c4_cancel_paths { c4Env with cancelAt := fun _ => true }).1 0 engineSt0 rfl
  · have h := (c4_cancel_paths c4Env).2 engineSt0 c4Call shDefW "canceled"
      rfl rfl rfl rfl rfl (by decide)
    exact ⟨h.1, h.2.1⟩

/-! ## C5: the loop is bounded by maxTurns = 8 model rounds

Each iteration that is not cut short by cancellation emits exactly one
model_output_completed event, and no other engine operation emits one,
so modelRounds counts the iterations a turn performed. -/

theorem pushEv_mr_ne (st : EngineState) (e : SEvent)
    (h : (e.type == "model_output_completed") = false) :
    modelRounds (pushEv st e) = modelRounds st := by
  simp [pushEv, modelRounds, mrCount, List.countP_append, List.countP_cons,
        List.countP_nil, h]

theorem pushEv_mr_eq (st : EngineState) (e : SEvent)
    (h : (e.type == "model_output_completed") = true) :
    modelRounds (pushEv st e) = modelRounds st + 1 := by
  simp [pushEv, modelRounds, mrCount, List.countP_append, List.countP_cons,
        List.countP_nil, h]

theorem dirty_mr (Y : EngineState) :
    modelRounds { Y with dirty := true } = modelRounds Y := rfl

theorem status2_mr (Y : EngineState) (a b : String) :
    modelRounds { Y with sessionStatus := a, turnStatus := b } = modelRounds Y := rfl

theorem appendSkipped_mr (st : EngineState) (c : ToolCall) (r : String) :
    modelRounds (appendSkipped st c r) = modelRounds st := by
  simp [appendSkipped, pushEvs, skipPairEvs, modelRounds, mrCount,
        List.countP_append, List.countP_cons, List.countP_nil, evDataOf]

theorem appendMessage_mr (st : EngineState) (role : String) (ps : List MsgPart)
    (t : Option String) :
    modelRounds (appendMessage st role ps t) = modelRounds st := by
  simp [appendMessage, pushEv, modelRounds, mrCount, List.countP_append,
        List.countP_cons, List.countP_nil, evDataOf]

theorem completeTurn_mr (st : EngineState) :
    modelRounds (completeTurn st) = modelRounds st := by
  simp [completeTurn, pushEv, modelRounds, mrCount, List.countP_append,
        List.countP_cons, List.countP_nil, evOf]

theorem cancelTurn_mr (st : EngineState) (r : String) :
    modelRounds (cancelTurn st r) = modelRounds st := by
  simp [cancelTurn, pushEv, modelRounds, mrCount, List.countP_append,
        List.countP_cons, List.countP_nil, evMsgOf]

theorem failTurn_mr (st : EngineState) (m : String) :
    modelRounds (failTurn st m) = modelRounds st := by
  simp [failTurn, pushEv, modelRounds, mrCount, List.countP_append,
        List.countP_cons, List.countP_nil, evMsgOf]

theorem initTurn_mr (env : Env) (st : EngineState) :
    modelRounds (initTurn env st) = modelRounds st := by
  simp [initTurn, pushEv, modelRounds, mrCount, List.countP_append,
        List.countP_cons, List.countP_nil, evOf, evDataOf]

theorem scheduleCalls_mr (env : Env) (calls : List ToolCall) : ∀ st : EngineState,
    modelRounds (excState (scheduleCalls env calls st)) = modelRounds st := by
  induction calls with
  | nil => intro st; rfl
  | cons call rest ih =>
    intro st
    cases hreg : env.registry call.name with
    | none => simp [scheduleCalls, hreg, excState]
    | some tool =>
      by_cases hdup : countGet st.counts (toolCallKey call) > 0
      · simp only [scheduleCalls, hreg, if_pos hdup]
        rw [ih, appendSkipped_mr]
      · simp only [scheduleCalls, hreg, if_neg hdup]
        have h := ih (bumpCount st (toolCallKey call))
        cases hrec : scheduleCalls env rest (bumpCount st (toolCallKey call)) with
        | ok s2 tl =>
          simp only [hrec]
          rw [hrec] at h
          exact h
        | raised s2 m =>
          simp only [hrec]
          rw [hrec] at h
          exact h

theorem invokeSpecValidate_mr (env : Env) (st : EngineState) :
    modelRounds (excState (invokeSpecValidate env st)) = modelRounds st := by
  cases hreg : env.registry "validate_spec" with
  | none => simp [invokeSpecValidate, hreg, excState]
  | some d =>
    simp [invokeSpecValidate, hreg, excState, freshCallId, pushEv, appendMessage,
          modelRounds, mrCount, List.countP_append, List.countP_cons,
          List.countP_nil, evDataOf]

theorem invokeVerify_mr (env : Env) (st : EngineState) :
    modelRounds (excState (invokeVerify env st)) = modelRounds st := by
  cases hreg : env.registry "verify" with
  | none => simp [invokeVerify, hreg, excState]
  | some vd =>
    by_cases hra : requiresApproval env vd
    · cases hap : env.approval ("call-" ++ toString st.nextId) with
      | canceledWait r =>
        simp [invokeVerify, hreg, freshCallId, if_pos hra, hap, excState, pushEv,
              modelRounds, mrCount, List.countP_append, List.countP_cons,
              List.countP_nil, evDataOf]
      | decision action reason =>
        by_cases hd : action = "deny"
        · simp [invokeVerify, hreg, freshCallId, if_pos hra, hap, hd, excState,
                pushEv, modelRounds, mrCount, List.countP_append, List.countP_cons,
                List.countP_nil, evDataOf]
        · simp [invokeVerify, hreg, freshCallId, if_pos hra, hap, hd, excState,
                pushEv, appendMessage, modelRounds, mrCount, List.countP_append,
                List.countP_cons, List.countP_nil, evDataOf]
    · simp [invokeVerify, hreg, freshCallId, if_neg hra, excState, pushEv,
            appendMessage, modelRounds, mrCount, List.countP_append,
            List.countP_cons, List.countP_nil, evDataOf]

theorem execTail_mr (env : Env) (rest : List (ToolCall × ToolDef))
    (ihr : ∀ (n : Nat) (st : EngineState),
      modelRounds (excState (execCalls env rest n st)) = modelRounds st)
    (n : Nat) (b : Bool) (okr : Bool) (S : EngineState) :
    modelRounds (excState (
      if b then
        match invokeSpecValidate env S with
        | ExcRes.raised s5 m => ExcRes.raised s5 m
        | ExcRes.ok s5 okv =>
          if !okv then execCalls env rest n s5
          else if !okr then ExcRes.ok s5 n
          else execCalls env rest n s5
      else if !okr then ExcRes.ok S n
      else execCalls env rest n S)) = modelRounds S := by
  split
  · have h := invokeSpecValidate_mr env S
    cases hv : invokeSpecValidate env S with
    | ok s5 okv =>
      rw [hv] at h
      dsimp only
      split
      · rw [ihr]; exact h
      · split
        · exact h
        · rw [ihr]; exact h
    | raised s5 m =>
      rw [hv] at h
      exact h
  · split
    · rfl
    · rw [ihr]

theorem execCalls_mr (env : Env) (batch : List (ToolCall × ToolDef)) :
    ∀ (n : Nat) (st : EngineState),
    modelRounds (excState (execCalls env batch n st)) = modelRounds st := by
  induction batch with
  | nil => intro n st; rfl
  | cons p rest ih =>
    obtain ⟨call, tool⟩ := p
    intro n st
    simp only [execCalls]
    split
    · split
      · dsimp only [excState]
        rw [pushEv_mr_ne _ _ (by simp [evDataOf]), status2_mr]
      · split
        · dsimp only [excState]
          rw [pushEv_mr_ne _ _ (by simp [evDataOf]),
              pushEv_mr_ne _ _ (by simp [evDataOf]), status2_mr]
        · refine Eq.trans (execTail_mr env rest ih (n + 1) _ _ _) ?_
          split
          · rw [dirty_mr, appendMessage_mr, pushEv_mr_ne _ _ (by simp [evDataOf]),
                pushEv_mr_ne _ _ (by simp [evDataOf]),
                pushEv_mr_ne _ _ (by simp [evDataOf]), status2_mr,
                pushEv_mr_ne _ _ (by simp [evDataOf]), status2_mr]
          · rw [appendMessage_mr, pushEv_mr_ne _ _ (by simp [evDataOf]),
                pushEv_mr_ne _ _ (by simp [evDataOf]),
                pushEv_mr_ne _ _ (by simp [evDataOf]), status2_mr,
                pushEv_mr_ne _ _ (by simp [evDataOf]), status2_mr]
    · refine Eq.trans (execTail_mr env rest ih (n + 1) _ _ _) ?_
      split
      · rw [dirty_mr, appendMessage_mr, pushEv_mr_ne _ _ (by simp [evDataOf]),
            pushEv_mr_ne _ _ (by simp [evDataOf])]
      · rw [appendMessage_mr, pushEv_mr_ne _ _ (by simp [evDataOf]),
            pushEv_mr_ne _ _ (by simp [evDataOf])]

theorem verifyStep_mr (env : Env) (S : EngineState) :
    modelRounds (IterOut.state (
      if env.autoVerify && S.dirty then
        match invokeVerify env S with
        | ExcRes.raised s2 m => IterOut.raised s2 m
        | ExcRes.ok s2 okv =>
          if !okv then IterOut.next s2
          else IterOut.finished (completeTurn s2)
      else IterOut.finished (completeTurn S))) = modelRounds S := by
  split
  · have h := invokeVerify_mr env S
    cases hv : invokeVerify env S with
    | ok s2 okv =>
      rw [hv] at h
      dsimp only
      split
      · exact h
      · dsimp only [IterOut.state]
        rw [completeTurn_mr]
        exact h
    | raised s2 m =>
      rw [hv] at h
      exact h
  · dsimp only [IterOut.state]
    rw [completeTurn_mr]

theorem iterBody_mr (env : Env) (e : Bool) (AP : List MsgPart)
    (ctr : List (ToolCall × ToolDef)) (st2 : EngineState) :
    modelRounds (IterOut.state (
      let st3 := if AP.isEmpty then st2 else appendMessage st2 "assistant" AP none
      if e then
        if env.autoVerify && st3.dirty then
          match invokeVerify env st3 with
          | ExcRes.raised s4 m => IterOut.raised s4 m
          | ExcRes.ok s4 okv =>
            if !okv then IterOut.next s4
            else IterOut.finished (completeTurn s4)
        else IterOut.finished (completeTurn st3)
      else
        match execCalls env ctr 0 st3 with
        | ExcRes.raised s4 m => IterOut.raised s4 m
        | ExcRes.ok s4 n4 =>
          if n4 = 0 then
            if env.autoVerify && s4.dirty then
              match invokeVerify env s4 with
              | ExcRes.raised s5 m => IterOut.raised s5 m
              | ExcRes.ok s5 okv =>
                if !okv then IterOut.next s5
                else IterOut.finished (completeTurn s5)
            else IterOut.finished (completeTurn s4)
          else IterOut.next s4)) = modelRounds st2 := by
  have h3 : modelRounds (if AP.isEmpty then st2 else appendMessage st2 "assistant" AP none)
      = modelRounds st2 := by
    split
    · rfl
    · rw [appendMessage_mr]
  dsimp only
  split
  · exact (verifyStep_mr env _).trans h3
  · have h4 := execCalls_mr env ctr 0
      (if AP.isEmpty then st2 else appendMessage st2 "assistant" AP none)
    cases hec : execCalls env ctr 0
        (if AP.isEmpty then st2 else appendMessage st2 "assistant" AP none) with
    | raised s4 m =>
      rw [hec] at h4
      exact h4.trans h3
    | ok s4 n4 =>
      rw [hec] at h4
      dsimp only [excState] at h4
      dsimp only
      split
      · exact (verifyStep_mr env s4).trans (h4.trans h3)
      · exact h4.trans h3

theorem execIter_mr (env : Env) (i : Nat) (st : EngineState) :
    modelRounds (IterOut.state (execIter env i st)) ≤ modelRounds st + 1 := by
  cases hc : env.cancelAt i with
  | true =>
    simp only [execIter, hc, eq_self_iff_true, if_true, IterOut.state]
    rw [cancelTurn_mr]
    omega
  | false =>
    rcases hmod : env.model i with ⟨text, calls⟩
    simp only [execIter, hc, Bool.false_eq_true, if_false, hmod]
    have h0 : modelRounds (if text ≠ "" then
        pushEv st (evDataOf "model_output_delta" { delta := some text }) else st)
        = modelRounds st := by
      split
      · rw [pushEv_mr_ne _ _ (by simp [evDataOf])]
      · rfl
    have h1 : modelRounds (pushEv (if text ≠ "" then
        pushEv st (evDataOf "model_output_delta" { delta := some text }) else st)
        (evDataOf "model_output_completed" { finish_reason := env.finishReason i }))
        = modelRounds st + 1 := by
      rw [pushEv_mr_eq _ _ (by simp [evDataOf]), h0]
    have hS := scheduleCalls_mr env calls (pushEv (if text ≠ "" then
        pushEv st (evDataOf "model_output_delta" { delta := some text }) else st)
        (evDataOf "model_output_completed" { finish_reason := env.finishReason i }))
    cases hsch : scheduleCalls env calls (pushEv (if text ≠ "" then
        pushEv st (evDataOf "model_output_delta" { delta := some text }) else st)
        (evDataOf "model_output_completed" { finish_reason := env.finishReason i })) with
    | raised s2 m =>
      rw [hsch] at hS
      dsimp only [excState] at hS
      dsimp only [IterOut.state]
      omega
    | ok s2 ctr =>
      rw [hsch] at hS
      dsimp only [excState] at hS
      dsimp only
      refine le_trans (le_of_eq (iterBody_mr env _ _ _ _)) ?_
      omega

theorem runLoop_mr (env : Env) : ∀ (fuel i : Nat) (st : EngineState),
    modelRounds (IterOut.state (runLoop env fuel i st)) ≤ modelRounds st + fuel := by
  intro fuel
  induction fuel with
  | zero => intro i st; simp [runLoop, IterOut.state]
  | succ f ihf =>
    intro i st
    have hx := execIter_mr env i st
    cases hE : execIter env i st with
    | next s2 =>
      rw [hE] at hx
      dsimp only [IterOut.state] at hx
      simp only [runLoop, hE]
      have hr := ihf (i + 1) s2
      omega
    | finished s2 =>
      rw [hE] at hx
      dsimp only [IterOut.state] at hx
      simp only [runLoop, hE]
      dsimp only [IterOut.state]
      omega
    | raised s2 m =>
      rw [hE] at hx
      dsimp only [IterOut.state] at hx
      simp only [runLoop, hE]
      dsimp only [IterOut.state]
      omega

theorem runLoop_step (env : Env) (fuel i : Nat) (st s2 : EngineState)
    (h : execIter env i st = IterOut.next s2) :
    runLoop env (fuel + 1) i st = runLoop env fuel (i + 1) s2 := by
  simp only [runLoop, h]

/-- C5: the iteration loop of _execute_turn is bounded by maxTurns = 8
rounds. First, every turn performs at most 8 model iterations: the final
state holds at most 8 more model_output_completed events than the
initial state, whatever the environment does. Second, if every one of
the 8 rounds hands control back to the loop (no round reaches
quiescence, raises, or observes cancellation), the turn and the session
transition to failed with error "max turn iterations reached". -/
theorem c5_max_eight_iterations :
    (∀ (env : Env) (st0 : EngineState),
        modelRounds (executeTurn env st0) ≤ modelRounds st0 + maxTurns) ∧
    (∀ (env : Env) (st0 : EngineState),
        (∀ j, j < maxTurns →
          execIter env j (chainState env (initTurn env st0) j)
            = IterOut.next (chainState env (initTurn env st0) (j + 1))) →
        (executeTurn env st0).sessionStatus = "failed" ∧
        (executeTurn env st0).turnStatus = "failed" ∧
        (executeTurn env st0).turnError = "max turn iterations reached" ∧
        (executeTurn env st0).sessionError = "max turn iterations reached") := by
  constructor
  · intro env st0
    have h := runLoop_mr env maxTurns 0 (initTurn env st0)
    have h0 : modelRounds (initTurn env st0) = modelRounds st0 := initTurn_mr env st0
    cases hE : runLoop env maxTurns 0 (initTurn env st0) with
    | finished s =>
      rw [hE] at h
      dsimp only [IterOut.state] at h
      simp only [executeTurn, hE]
      omega
    | raised s m =>
      rw [hE] at h
      dsimp only [IterOut.state] at h
      simp only [executeTurn, hE]
      rw [failTurn_mr]
      omega
    | next s =>
      rw [hE] at h
      dsimp only [IterOut.state] at h
      simp only [executeTurn, hE]
      omega
  · intro env st0 H
    have h0 := H 0 (by decide)
    have h1 := H 1 (by decide)
    have h2 := H 2 (by decide)
    have h3 := H 3 (by decide)
    have h4 := H 4 (by decide)
    have h5 := H 5 (by decide)
    have h6 := H 6 (by decide)
    have h7 := H 7 (by decide)
    have hloop : runLoop env 8 0 (initTurn env st0)
        = IterOut.raised (chainState env (initTurn env st0) 8)
            "max turn iterations reached" :=
      (runLoop_step env 7 0 _ _ h0).trans
        ((runLoop_step env 6 1 _ _ h1).trans
        ((runLoop_step env 5 2 _ _ h2).trans
        ((runLoop_step env 4 3 _ _ h3).trans
        ((runLoop_step env 3 4 _ _ h4).trans
        ((runLoop_step env 2 5 _ _ h5).trans
        ((runLoop_step env 1 6 _ _ h6).trans
        ((runLoop_step env 0 7 _ _ h7).trans rfl)))))))
    have hfail : executeTurn env st0
        = failTurn (chainState env (initTurn env st0) 8)
            "max turn iterations reached" := by
      simp only [executeTurn, maxTurns]
      rw [hloop]
    rw [hfail]
    exact ⟨rfl, rfl, rfl, rfl⟩

/-- Witness for C5: in the concrete environment whose model returns a
fresh failing call every round, the turn fails with the max-iterations
error, and the model-round bound is attained at the concrete inputs. -/
theorem c5_max_eight_iterations_witness :
    (executeTurn c5Env engineSt0).sessionStatus = "failed" ∧
    (executeTurn c5Env engineSt0).turnStatus = "failed" ∧
    (executeTurn c5Env engineSt0).turnError = "max turn iterations reached" ∧
    modelRounds (executeTurn c5Env engineSt0) ≤ modelRounds engineSt0 + maxTurns := by
  have hch : ∀ j, j < maxTurns →
      execIter c5Env j (chainState c5Env (initTurn c5Env engineSt0) j)
        = IterOut.next (chainState c5Env (initTurn c5Env engineSt0) (j + 1)) := by
    intro j hj
    have hj8 : j < 8 := hj
    interval_cases j <;> rfl
  exact ⟨(c5_max_eight_iterations.2 c5Env engineSt0 hch).1,
    (c5_max_eight_iterations.2 c5Env engineSt0 hch).2.1,
    (c5_max_eight_iterations.2 c5Env engineSt0 hch).2.2.1,
    c5_max_eight_iterations.1 c5Env engineSt0⟩

end Harness
